import Mathlib

/-!
Verification development for the time-resolution algorithm of the `dob`
command-line time tracker (`dob/helpers/fix_times.py`, function
`must_complete_times` and its nested helpers).

Shallow embedding conventions:
* Timestamps (`datetime`) are modelled as `DT := Int`, counting minutes from
  an arbitrary epoch.  A clock time of day is a pair `(hour, minute)`; a day
  has 1440 minutes.
* A fact's `start`/`end` field is a `TimeVal`: Python `None`, a `datetime`,
  or a string.  The strings relevant to the algorithm are classified by which
  external parser accepts them: `clockStr h m` is a string accepted by
  `parse_clock_time` (for example `"14:30"`), `deltaStr mins minus` is a
  string accepted by `parse_relative_minutes` (for example `"-15"`, with
  `mins` the signed minute count and `minus` the sign flag), and `junk s`
  is a string rejected by both parsers.  The two accepted languages are
  disjoint, matching the external parsers.
* Python truthiness: `None` is falsy, every `datetime` is truthy, a string
  is truthy exactly when it is nonempty.
* Facts are mutated in place in the source; here the batch is a `List Fact`
  threaded through the passes, and a fact's identity (used by conflict
  records and by `verify_datetimes_missing_already_caught`) is its index in
  the batch.
* The external facts store is a record of the three read-only operations the
  resolver consumes: `antecedent`, `subsequent` and the clock `now`.
* Exceptions / failed `assert` statements are modelled with `Except Fatal`;
  the terminal `barf_and_exit` on a non-empty conflict list is the `barf`
  result constructor.
-/

namespace Dob

/-- Minutes since an arbitrary epoch; the model of a Python `datetime`. -/
abbrev DT := Int

/-- Classification of a time-expression string by the external parsers
(`parse_clock_time` / `parse_relative_minutes` from the external `nark`
library): a clock-of-day string, a signed relative-minutes string, or a
string both parsers reject. -/
inductive TimeStr : Type
  | clockStr (h m : Nat)
  | deltaStr (mins : Int) (minus : Bool)
  | junk (s : String)
  deriving DecidableEq

/-- A fact's `start` or `end` attribute: Python `None`, a `datetime`, or a
string holding an unresolved time expression. -/
inductive TimeVal : Type
  | none
  | dt (t : DT)
  | str (s : TimeStr)
  deriving DecidableEq

/-- Python truthiness of a time-expression string: a string is truthy iff
nonempty; strings accepted by either parser are necessarily nonempty. -/
def TimeStr.truthy : TimeStr → Bool
  | .clockStr _ _ => true
  | .deltaStr _ _ => true
  | .junk s => !s.isEmpty

/-- Python truthiness of a `start`/`end` attribute value. -/
def TimeVal.truthy : TimeVal → Bool
  | .none => false
  | .dt _ => true
  | .str s => s.truthy

/-- A new (not yet persisted) fact, restricted to the attributes the
resolver reads and writes. -/
structure Fact : Type where
  start : TimeVal
  end_ : TimeVal
  deriving DecidableEq

/-- An already-stored fact as returned by the store's `antecedent` /
`subsequent` queries: its times are concrete `datetime`s or `None`,
never symbolic strings. -/
structure StoredFact : Type where
  start : Option DT
  end_ : Option DT
  deriving DecidableEq

/-- The external facts store, reduced to the read-only operations
`must_complete_times` consumes: `antecedent(ref_time)`,
`subsequent(ref_time)` and the clock `now`. -/
structure Store : Type where
  antecedent : DT → Option StoredFact
  subsequent : DT → Option StoredFact
  now : DT

/-- Which attribute of a fact a pass is currently fixing (the `which`
parameter, `'start'` or `'end'`, in the source). -/
inductive Which : Type
  | start
  | end_
  deriving DecidableEq

/-- The opposite attribute (`at_oppo` in `infer_datetime_from_clock`). -/
def Which.oppo : Which → Which
  | .start => .end_
  | .end_ => .start

/-- `getattr(fact, which)`. -/
def getattr : Fact → Which → TimeVal
  | f, .start => f.start
  | f, .end_ => f.end_

/-- `setattr(fact, which, dt_suss)`. -/
def setattr : Fact → Which → TimeVal → Fact
  | f, .start, v => { f with start := v }
  | f, .end_, v => { f with end_ := v }

/-- The counterpart fact referenced by a conflict record: another new fact
in the batch (by index), the antecedent stored fact, or the subsequent
stored fact. -/
inductive FactRef : Type
  | newF (i : Nat)
  | ante
  | seqt
  deriving DecidableEq

/-- The reason string of a conflict record, abstracted to its message
template together with the data interpolated into it. -/
inductive Msg : Type
  | couldNotDecipherClock (c : Nat × Nat) (w : Which)
  | couldNotInferDelta (mins : Int) (w : Which)
  | couldNotTranslate (w : Which)
  | couldNotInferBlank (w : Which)
  | startsBeforePrev
  | endsAfterNext
  | startsAfterEnds
  deriving DecidableEq

/-- A conflict record `(fact, other, conflict_msg)`: the offending new fact
(by batch index), an optional counterpart, and the reason. -/
structure Conflict : Type where
  fact : Nat
  other : Option FactRef
  msg : Msg
  deriving DecidableEq

/-- The fatal (non-conflict) failure modes: the two storage-integrity
`assert False`/`raise` branches of `prev_and_later`, the
`assert fact.start or fact.end` of `fix_blank_times_relative`, and the
assertion of `verify_datetimes_missing_already_caught`. -/
inductive Fatal : Type
  | anteEndless
  | seqtStartless
  | blankMissingBoth
  | missingNotCaught
  deriving DecidableEq

/-- Outcome of `must_complete_times`: normal return with the (mutated)
batch, `barf_and_exit` with the batch and the accumulated conflicts, or a
fatal assertion/exception. -/
inductive MCTResult : Type
  | ok (facts : List Fact)
  | barf (facts : List Fact) (conflicts : List Conflict)
  | fatal (e : Fatal)
  deriving DecidableEq

/-- Modelled from the spec: minutes after midnight of the clock time of day
carried by a clock-time expression such as `"14:30"`. -/
def clockOfDay (c : Nat × Nat) : Int := (c.1 : Int) * 60 + (c.2 : Int)

/-- Modelled from the spec: the external `nark` helper
`datetime_from_clock_after(dt, clock)` — the next occurrence of the clock
time of day at or after `t` ("the next occurrence at or after
`prev_time`").  In the minutes model this is total. -/
def datetime_from_clock_after (t : DT) (c : Nat × Nat) : DT :=
  t + (clockOfDay c - t) % 1440

/-- Modelled from the spec: the external `nark` helper
`datetime_from_clock_prior(dt, clock)` — the latest occurrence of the clock
time of day at or before `t` (a clock time "resolved backward" from an
anchor).  In the minutes model this is total. -/
def datetime_from_clock_prior (t : DT) (c : Nat × Nat) : DT :=
  t - (t - clockOfDay c) % 1440

/-- Modelled from the spec: the external `nark` parser
`parse_clock_time(text)`; succeeds exactly on clock-time expressions,
returning the clock time of day. -/
def parse_clock_time : TimeStr → Option (Nat × Nat)
  | .clockStr h m => some (h, m)
  | _ => Option.none

/-- Modelled from the spec: the external `nark` parser
`parse_relative_minutes(text)`; succeeds exactly on signed relative-minutes
expressions, returning `(delta_mins, delta_minus)` with `delta_mins` the
signed minute count. -/
def parse_relative_minutes : TimeStr → Option (Int × Bool)
  | .deltaStr mins minus => some (mins, minus)
  | _ => Option.none

/-- `antecedent_fact(new_facts)`: scan the batch forward for the first
concrete timestamp (preferring `start` over `end` within a fact) and query
the store's `antecedent` with it; `None` when the batch holds no concrete
timestamp. -/
def antecedent_fact (store : Store) : List Fact → Option StoredFact
  | [] => Option.none
  | f :: fs =>
    match f.start with
    | .dt t => store.antecedent t
    | _ =>
      match f.end_ with
      | .dt t => store.antecedent t
      | _ => antecedent_fact store fs

/-- The scan of `subsequent_fact(new_facts)` over the reversed batch:
the first concrete timestamp scanning backward, preferring `end` over
`start` within a fact. -/
def subsequent_scan (store : Store) : List Fact → Option StoredFact
  | [] => Option.none
  | f :: fs =>
    match f.end_ with
    | .dt t => store.subsequent t
    | _ =>
      match f.start with
      | .dt t => store.subsequent t
      | _ => subsequent_scan store fs

/-- `subsequent_fact(new_facts)`: iterates `reversed(new_facts)`. -/
def subsequent_fact (store : Store) (facts : List Fact) : Option StoredFact :=
  subsequent_scan store facts.reverse

/-- The `seqt_fact` integrity check inside `prev_and_later`: a subsequent
stored fact must have a start time (`assert False` / raise otherwise). -/
def checkSeqt (seqt : Option StoredFact) (prev : Option DT) :
    Except Fatal (Option DT) :=
  match seqt with
  | Option.none => .ok prev
  | some sf => if sf.start.isNone then .error .seqtStartless else .ok prev

/-- `prev_and_later(new_facts, ante_fact, seqt_fact)` reduced to the data
the walks below do not reconstruct themselves: the initial `prev_time`
cursor (the antecedent's end), plus the two storage-integrity fatal
checks.  (The `later_facts` list it also builds is represented in the walks
by the remaining batch suffix together with `seqt`.) -/
def prev_and_later (new_facts : List Fact) (ante seqt : Option StoredFact)
    (ongoing_okay : Bool) : Except Fatal (Option DT) :=
  match ante with
  | Option.none => checkSeqt seqt Option.none
  | some af =>
    match af.end_ with
    | some t => checkSeqt seqt (some t)
    | Option.none =>
      if !ongoing_okay && new_facts.length == 1 && seqt.isNone then
        .error .anteEndless
      else checkSeqt seqt Option.none

/-- `find_next_datetime(later_facts)`: the first fact in the remaining
batch suffix (indices from `i`) followed by the subsequent stored fact that
carries a concrete timestamp, preferring `start` over `end`; returns the
timestamp and a reference to the fact carrying it. -/
def find_next_datetime (i : Nat) (later : List Fact)
    (seqt : Option StoredFact) : Option (DT × FactRef) :=
  match later with
  | [] =>
    match seqt with
    | Option.none => Option.none
    | some sf =>
      match sf.start with
      | some t => some (t, .seqt)
      | Option.none =>
        match sf.end_ with
        | some t => some (t, .seqt)
        | Option.none => Option.none
  | f :: fs =>
    match f.start with
    | .dt t => some (t, .newF i)
    | _ =>
      match f.end_ with
      | .dt t => some (t, .newF i)
      | _ => find_next_datetime (i + 1) fs seqt

/-- The timestamp component of `find_next_datetime`, independent of the
index bookkeeping. -/
def findNextT (later : List Fact) (seqt : Option StoredFact) : Option DT :=
  (find_next_datetime 0 later seqt).map Prod.fst

/-- `infer_datetime_from_clock(clock_time, fact, which, prev_time,
later_facts, conflicts)`: resolve a clock-time expression preferring the
fact's own opposite attribute, then the running cursor, then a forward
scan; on failure append one conflict and leave the attribute unchanged.
Returns the (possibly mutated) fact, the new cursor, and the appended
conflicts. -/
def infer_datetime_from_clock (c : Nat × Nat) (f : Fact) (w : Which)
    (prev : Option DT) (li : Nat) (later : List Fact)
    (seqt : Option StoredFact) (idx : Nat) :
    Fact × Option DT × List Conflict :=
  let dt_suss : Option DT :=
    match getattr f w.oppo with
    | .dt d =>
      match w with
      | .start => some (datetime_from_clock_prior d c)
      | .end_ => some (datetime_from_clock_after d c)
    | _ =>
      match prev with
      | some p => some (datetime_from_clock_after p c)
      | Option.none =>
        (find_next_datetime li later seqt).map
          (fun x => datetime_from_clock_prior x.1 c)
  match dt_suss with
  | some d => (setattr f w (.dt d), some d, [])
  | Option.none => (f, prev, [⟨idx, Option.none, .couldNotDecipherClock c w⟩])

/-- `fix_clock_time_relative(fact, which, prev_time, later_facts,
conflicts)`: a concrete timestamp advances the cursor; a string accepted by
`parse_clock_time` is resolved by `infer_datetime_from_clock`; anything
else is skipped. -/
def fix_clock_time_relative (f : Fact) (w : Which) (prev : Option DT)
    (li : Nat) (later : List Fact) (seqt : Option StoredFact) (idx : Nat) :
    Fact × Option DT × List Conflict :=
  match getattr f w with
  | .none => (f, prev, [])
  | .dt t => (f, some t, [])
  | .str s =>
    match parse_clock_time s with
    | some c => infer_datetime_from_clock c f w prev li later seqt idx
    | Option.none => (f, prev, [])

/-- The per-fact loop of `fix_clock_times_relative`: pop the fact, fix its
`start` then its `end` (the `end` step sees the mutated `start`), and
continue over the rest of the batch. -/
def fix_clock_walk (seqt : Option StoredFact) :
    Nat → Option DT → List Fact → List Fact × Option DT × List Conflict
  | _, prev, [] => ([], prev, [])
  | i, prev, f :: fs =>
    match fix_clock_time_relative f .start prev (i + 1) fs seqt i with
    | (f1, p1, c1) =>
      match fix_clock_time_relative f1 .end_ p1 (i + 1) fs seqt i with
      | (f2, p2, c2) =>
        match fix_clock_walk seqt (i + 1) p2 fs with
        | (fs2, p3, c3) => (f2 :: fs2, p3, c1 ++ c2 ++ c3)

/-- `fix_clock_times_relative(new_facts, ante_fact, seqt_fact, conflicts)`:
seed the cursor via `prev_and_later`, then walk the batch.  Returns the
mutated batch and the appended conflicts. -/
def fix_clock_times_relative (facts : List Fact) (ante seqt : Option StoredFact)
    (ongoing_okay : Bool) : Except Fatal (List Fact × List Conflict) := do
  let prev ← prev_and_later facts ante seqt ongoing_okay
  match fix_clock_walk seqt 0 prev facts with
  | (fs, _, cs) => .ok (fs, cs)

/-- `infer_datetime_from_delta(delta_mins, delta_minus, fact, which,
prev_time, later_facts, conflicts)`: a non-negative delta is added to the
cursor; a negative delta on a `start` with a concrete `end` is taken from
that `end`; otherwise a negative delta is taken from the next concrete
timestamp found scanning forward; on failure append one conflict. -/
def infer_datetime_from_delta (mins : Int) (minus : Bool) (f : Fact)
    (w : Which) (prev : Option DT) (li : Nat) (later : List Fact)
    (seqt : Option StoredFact) (idx : Nat) :
    Fact × Option DT × List Conflict :=
  let dt_suss : Option DT :=
    if minus = false then
      prev.map (fun p => p + mins)
    else
      match w, f.end_ with
      | .start, .dt e => some (e + mins)
      | _, _ => (find_next_datetime li later seqt).map (fun x => x.1 + mins)
  match dt_suss with
  | some d => (setattr f w (.dt d), some d, [])
  | Option.none => (f, prev, [⟨idx, Option.none, .couldNotInferDelta mins w⟩])

/-- `fix_delta_time_relative(fact, which, prev_time, later_facts,
conflicts)`. -/
def fix_delta_time_relative (f : Fact) (w : Which) (prev : Option DT)
    (li : Nat) (later : List Fact) (seqt : Option StoredFact) (idx : Nat) :
    Fact × Option DT × List Conflict :=
  match getattr f w with
  | .none => (f, prev, [])
  | .dt t => (f, some t, [])
  | .str s =>
    match parse_relative_minutes s with
    | some dm => infer_datetime_from_delta dm.1 dm.2 f w prev li later seqt idx
    | Option.none => (f, prev, [])

/-- The per-fact loop of `fix_delta_times_relative`. -/
def fix_delta_walk (seqt : Option StoredFact) :
    Nat → Option DT → List Fact → List Fact × Option DT × List Conflict
  | _, prev, [] => ([], prev, [])
  | i, prev, f :: fs =>
    match fix_delta_time_relative f .start prev (i + 1) fs seqt i with
    | (f1, p1, c1) =>
      match fix_delta_time_relative f1 .end_ p1 (i + 1) fs seqt i with
      | (f2, p2, c2) =>
        match fix_delta_walk seqt (i + 1) p2 fs with
        | (fs2, p3, c3) => (f2 :: fs2, p3, c1 ++ c2 ++ c3)

/-- `fix_delta_times_relative(new_facts, ante_fact, seqt_fact,
conflicts)`. -/
def fix_delta_times_relative (facts : List Fact) (ante seqt : Option StoredFact)
    (ongoing_okay : Bool) : Except Fatal (List Fact × List Conflict) := do
  let prev ← prev_and_later facts ante seqt ongoing_okay
  match fix_delta_walk seqt 0 prev facts with
  | (fs, _, cs) => .ok (fs, cs)

/-- `fix_blank_time_relative(fact, which, prev_time, later_facts,
conflicts)`: a concrete timestamp advances the cursor; a (truthy) leftover
string is a "could not translate relative date" conflict; a blank `start`
takes the cursor, a blank `end` takes the next concrete timestamp found
scanning forward or, failing that, the store clock `now`. -/
def fix_blank_time_relative (now : DT) (f : Fact) (w : Which)
    (prev : Option DT) (li : Nat) (later : List Fact)
    (seqt : Option StoredFact) (idx : Nat) :
    Fact × Option DT × List Conflict :=
  match getattr f w with
  | .dt t => (f, some t, [])
  | v =>
    if v.truthy then (f, prev, [⟨idx, Option.none, .couldNotTranslate w⟩])
    else
      let dt_suss : Option DT :=
        match w with
        | .start => prev
        | .end_ =>
          match find_next_datetime li later seqt with
          | some x => some x.1
          | Option.none => some now
      match dt_suss with
      | some d => (setattr f w (.dt d), some d, [])
      | Option.none =>
        (f, prev, [⟨idx, Option.none, .couldNotInferBlank w⟩])

/-- The per-fact loop of `fix_blank_times_relative`, including its
`assert fact.start or fact.end`. -/
def fix_blank_walk (now : DT) (seqt : Option StoredFact) :
    Nat → Option DT → List Fact →
    Except Fatal (List Fact × Option DT × List Conflict)
  | _, prev, [] => .ok ([], prev, [])
  | i, prev, f :: fs =>
    if !f.start.truthy && !f.end_.truthy then .error .blankMissingBoth
    else
      match fix_blank_time_relative now f .start prev (i + 1) fs seqt i with
      | (f1, p1, c1) =>
        match fix_blank_time_relative now f1 .end_ p1 (i + 1) fs seqt i with
        | (f2, p2, c2) =>
          match fix_blank_walk now seqt (i + 1) p2 fs with
          | .error e => .error e
          | .ok (fs2, p3, c3) => .ok (f2 :: fs2, p3, c1 ++ c2 ++ c3)

/-- `fix_blank_times_relative(new_facts, ante_fact, seqt_fact,
conflicts)`. -/
def fix_blank_times_relative (now : DT) (facts : List Fact)
    (ante seqt : Option StoredFact) (ongoing_okay : Bool) :
    Except Fatal (List Fact × List Conflict) := do
  let prev ← prev_and_later facts ante seqt ongoing_okay
  match fix_blank_walk now seqt 0 prev facts with
  | .error e => .error e
  | .ok (fs, _, cs) => .ok (fs, cs)

/-- `verify_datetimes_missing_already_caught(fact, conflicts)`: assert that
some already-accumulated conflict names this fact. -/
def verify_datetimes_missing_already_caught (idx : Nat)
    (conflicts : List Conflict) : Except Fatal Unit :=
  if (conflicts.filter (fun c => c.fact == idx)).length > 0 then .ok ()
  else .error .missingNotCaught

/-- The "starts before previous fact ends" check of the sanity pass, on a
concrete `start`. -/
def sanity_start_check (idx : Nat) (pref : Option FactRef)
    (prev : Option DT) (s : DT) : List Conflict :=
  match prev with
  | some p => if s < p then [⟨idx, pref, .startsBeforePrev⟩] else []
  | Option.none => []

/-- The "ends after next fact starts" check of the sanity pass, on a
concrete `end`. -/
def sanity_end_check (idx : Nat) (later : List Fact)
    (seqt : Option StoredFact) (e : DT) : List Conflict :=
  match find_next_datetime (idx + 1) later seqt with
  | some x => if x.1 < e then [⟨idx, some x.2, .endsAfterNext⟩] else []
  | Option.none => []

/-- The "starts after it ends" check of the sanity pass, when both
attributes are concrete (`n_datetimes == 2`). -/
def sanity_order_check (idx : Nat) (f : Fact) (n : Nat) : List Conflict :=
  if n == 2 then
    match f.start, f.end_ with
    | .dt s, .dt e => if e < s then [⟨idx, Option.none, .startsAfterEnds⟩] else []
    | _, _ => []
  else []

/-- The per-fact loop of `verify_datetimes_sanity`: per fact, a missing
(falsy) attribute must already have been flagged (assertion); a concrete
`start` must not precede the cursor; a concrete `end` must not exceed the
next concrete timestamp; and with both concrete, `start <= end`.  `csAcc`
is the full conflict list accumulated so far (consulted by the assertion);
the returned list holds only the conflicts this pass appends. -/
def verify_sanity_walk (seqt : Option StoredFact) :
    Nat → Option DT → Option FactRef → List Conflict → List Fact →
    Except Fatal (List Conflict)
  | _, _, _, _, [] => .ok []
  | i, prev, pref, csAcc, f :: fs =>
    let startRes : Except Fatal (Option DT × Nat × List Conflict) :=
      if !f.start.truthy then
        (verify_datetimes_missing_already_caught i csAcc).map
          (fun _ => (prev, 0, []))
      else
        match f.start with
        | .dt s => .ok (some s, 1, sanity_start_check i pref prev s)
        | _ => .ok (prev, 0, [])
    match startRes with
    | .error e => .error e
    | .ok (prev1, n1, a1) =>
      let endRes : Except Fatal (Option DT × Nat × List Conflict) :=
        if !f.end_.truthy then
          (verify_datetimes_missing_already_caught i (csAcc ++ a1)).map
            (fun _ => (prev1, 0, []))
        else
          match f.end_ with
          | .dt e => .ok (some e, 1, sanity_end_check i fs seqt e)
          | _ => .ok (prev1, 0, [])
      match endRes with
      | .error e => .error e
      | .ok (prev2, n2, a2) =>
        let a3 := sanity_order_check i f (n1 + n2)
        match verify_sanity_walk seqt (i + 1) prev2 (some (.newF i))
            (csAcc ++ a1 ++ a2 ++ a3) fs with
        | .error e => .error e
        | .ok rest => .ok (a1 ++ a2 ++ a3 ++ rest)

/-- `verify_datetimes_sanity(new_facts, ante_fact, seqt_fact, conflicts)`:
seed the cursor via `prev_and_later` (with `prev_fact` the antecedent) and
walk the batch.  Returns the conflicts this pass appends. -/
def verify_datetimes_sanity (facts : List Fact) (ante seqt : Option StoredFact)
    (ongoing_okay : Bool) (csAcc : List Conflict) :
    Except Fatal (List Conflict) := do
  let prev ← prev_and_later facts ante seqt ongoing_okay
  verify_sanity_walk seqt 0 prev (ante.map (fun _ => FactRef.ante)) csAcc facts

/-- The body of `_must_complete_times` after the empty-batch early return:
query the two anchors, run the four passes in order, and return the mutated
batch with the full accumulated conflict list. -/
def mct_passes (store : Store) (new_facts : List Fact) (ongoing_okay : Bool) :
    Except Fatal (List Fact × List Conflict) := do
  let ante := antecedent_fact store new_facts
  let seqt := subsequent_fact store new_facts
  let (fs1, cs1) ← fix_clock_times_relative new_facts ante seqt ongoing_okay
  let (fs2, cs2) ← fix_delta_times_relative fs1 ante seqt ongoing_okay
  let (fs3, cs3) ← fix_blank_times_relative store.now fs2 ante seqt ongoing_okay
  let cs4 ← verify_datetimes_sanity fs3 ante seqt ongoing_okay (cs1 ++ cs2 ++ cs3)
  .ok (fs3, cs1 ++ cs2 ++ cs3 ++ cs4)

/-- `must_complete_times(controller, new_facts, ongoing_okay)`: empty
batches return immediately (before any store access); otherwise the four
passes run and `barf_on_overlapping_facts_new` aborts exactly when the
accumulated conflict list is non-empty. -/
def must_complete_times (store : Store) (new_facts : List Fact)
    (ongoing_okay : Bool) : MCTResult :=
  if new_facts.isEmpty then .ok new_facts
  else
    match mct_passes store new_facts ongoing_okay with
    | .error e => .fatal e
    | .ok (fs, cs) => if cs.isEmpty then .ok fs else .barf fs cs

/-! ## Spec-mirror definition for the clock-time priority order -/

/-- Follows the spec's words (clock-time pass, resolution priority): (a) the
fact's own opposite attribute when it is already absolute — a clock `start`
resolved backward from the known `end`, a clock `end` resolved forward from
the known `start`; otherwise (b) the next occurrence of the clock time at
or after the running `prev_time` cursor; otherwise (c) the nearest concrete
timestamp found scanning forward through the remaining batch and the
subsequent stored fact, resolved backward from it; `none` when no anchor
exists at all. -/
def clock_priority_spec (f : Fact) (w : Which) (c : Nat × Nat)
    (prev : Option DT) (li : Nat) (later : List Fact)
    (seqt : Option StoredFact) : Option DT :=
  match getattr f w.oppo, w with
  | .dt d, .start => some (datetime_from_clock_prior d c)
  | .dt d, .end_ => some (datetime_from_clock_after d c)
  | _, _ =>
    match prev with
    | some p => some (datetime_from_clock_after p c)
    | Option.none =>
      (find_next_datetime li later seqt).map
        (fun x => datetime_from_clock_prior x.1 c)

/-! ## Claim theorems -/

/-- C10: calling `must_complete_times` with an empty batch returns normally,
independently of the store (so no `antecedent`, `subsequent` or `now` access
can influence it), and leaves the (empty) batch unchanged. -/
theorem c10_empty_batch_no_op (store : Store) (ongoing_okay : Bool) :
    must_complete_times store [] ongoing_okay = .ok [] := rfl

/-- C9 (amended): when `ongoing_okay` is `false`, the batch holds exactly one
fact, the antecedent query returns a stored fact with no end time, and there
is no subsequent stored fact, the resolver fails with the fatal
internal-consistency error (and hence records no user-reportable
conflict). -/
theorem c9_ante_endless_fatal (store : Store) (f : Fact) (a : StoredFact)
    (ha : antecedent_fact store [f] = some a) (hae : a.end_ = Option.none)
    (hs : subsequent_fact store [f] = Option.none) :
    must_complete_times store [f] false = .fatal .anteEndless := by
  simp [must_complete_times, mct_passes, ha, hs, hae,
    fix_clock_times_relative, prev_and_later, checkSeqt, Option.isNone,
    Bind.bind, Except.bind]

/-- C9 witness: a concrete store whose antecedent is endless, a singleton
batch, no subsequent fact, `ongoing_okay = false`: the run is fatal. -/
theorem c9_ante_endless_fatal_witness :
    must_complete_times ⟨fun _ => some ⟨some 0, Option.none⟩, fun _ => Option.none, 0⟩
        [⟨.dt 100, .dt 200⟩] false = .fatal .anteEndless :=
  c9_ante_endless_fatal _ ⟨.dt 100, .dt 200⟩ ⟨some 0, Option.none⟩ rfl rfl rfl

/-- C9 counterexample: the same situation the claim describes — endless
antecedent, exactly one fact in the batch, no subsequent — but with
`ongoing_okay = true`: the call does NOT fail; it returns normally.  The
claim's "for every call" is therefore false: the fatal check is gated on
`not ongoing_okay`. -/
theorem c9_counterexample :
    antecedent_fact ⟨fun _ => some ⟨some 0, Option.none⟩, fun _ => Option.none, 0⟩
        [⟨.dt 100, .dt 200⟩] = some ⟨some 0, Option.none⟩ ∧
    subsequent_fact ⟨fun _ => some ⟨some 0, Option.none⟩, fun _ => Option.none, 0⟩
        [⟨.dt 100, .dt 200⟩] = Option.none ∧
    must_complete_times ⟨fun _ => some ⟨some 0, Option.none⟩, fun _ => Option.none, 0⟩
        [⟨.dt 100, .dt 200⟩] true = .ok [⟨.dt 100, .dt 200⟩] := by
  refine ⟨rfl, rfl, by decide⟩

/-- The C4 scenario input: a single fact with `start` absent and
`end = "-15"`; the store's antecedent (were it consulted) ends at minute
540 (2020-01-01 09:00) and `now` is minute 570 (09:30). -/
def c4store : Store := ⟨fun _ => some ⟨some 0, some 540⟩, fun _ => Option.none, 570⟩

/-- The C4 scenario batch. -/
def c4facts : List Fact := [⟨.none, .str (.deltaStr (-15) true)⟩]

/-- C4 counterexample: on the scenario input the call does not succeed with
`start = 09:00` (540) and `end = 09:15` (555) as claimed. -/
theorem c4_counterexample :
    must_complete_times c4store c4facts false ≠ .ok [⟨.dt 540, .dt 555⟩] := by
  decide

/-- C4 (amended): on the scenario input the batch holds no concrete
timestamp, so the antecedent query is never made; the delta pass finds
neither a cursor nor a later anchor for the negative delta, the blank-fill
pass can fill neither field, and the call aborts with three conflicts,
leaving the fact unresolved. -/
theorem c4_actual_behavior :
    antecedent_fact c4store c4facts = Option.none ∧
    must_complete_times c4store c4facts false =
      .barf c4facts
        [⟨0, Option.none, .couldNotInferDelta (-15) .end_⟩,
         ⟨0, Option.none, .couldNotInferBlank .start⟩,
         ⟨0, Option.none, .couldNotTranslate .end_⟩] := by
  refine ⟨rfl, by decide⟩

/-- The C5 scenario input: a single fact with `start = "14:00"` and `end`
absent; the store's antecedent (were it consulted) ends at minute 720
(2020-01-01 12:00), no subsequent fact, `now` is minute 900 (15:00). -/
def c5store : Store := ⟨fun _ => some ⟨some 700, some 720⟩, fun _ => Option.none, 900⟩

/-- The C5 scenario batch. -/
def c5facts : List Fact := [⟨.str (.clockStr 14 0), .none⟩]

/-- C5 counterexample: on the scenario input the call does not succeed with
`start = 14:00` (840) and `end` left absent as claimed. -/
theorem c5_counterexample :
    must_complete_times c5store c5facts true ≠ .ok [⟨.dt 840, .none⟩] := by
  decide

/-- C5 (amended): on the scenario input the batch holds no concrete
timestamp, so the antecedent query is never made and the clock time has no
anchor; the blank-fill pass sets `end` to `now` (not left absent) and
flags the still-symbolic `start`; the call aborts with two conflicts. -/
theorem c5_actual_behavior :
    antecedent_fact c5store c5facts = Option.none ∧
    must_complete_times c5store c5facts true =
      .barf [⟨.str (.clockStr 14 0), .dt 900⟩]
        [⟨0, Option.none, .couldNotDecipherClock (14, 0) .start⟩,
         ⟨0, Option.none, .couldNotTranslate .start⟩] := by
  refine ⟨rfl, by decide⟩

/-- C3: a field holding a clock-time expression is resolved exactly by the
spec's priority order (`clock_priority_spec`): on success the field is
overwritten with the resolved timestamp and the cursor advances to it; when
no anchor exists, exactly one conflict for this fact/field is appended and
the field is left symbolic. -/
theorem c3_clock_priority (f : Fact) (w : Which) (prev : Option DT)
    (li : Nat) (later : List Fact) (seqt : Option StoredFact) (idx : Nat)
    (s : TimeStr) (c : Nat × Nat)
    (hf : getattr f w = .str s) (hp : parse_clock_time s = some c) :
    fix_clock_time_relative f w prev li later seqt idx =
      match clock_priority_spec f w c prev li later seqt with
      | some d => (setattr f w (.dt d), some d, [])
      | Option.none =>
        (f, prev, [⟨idx, Option.none, .couldNotDecipherClock c w⟩]) := by
  simp only [fix_clock_time_relative, hf, hp]
  unfold infer_datetime_from_clock clock_priority_spec
  cases hww : getattr f w.oppo <;> cases w <;> simp [hww]

/-- C3 witness: a `"9:30"` start with a cursor at minute 100 resolves, per
priority (b), to the next 9:30 occurrence (minute 570), overwriting the
field and advancing the cursor, with no conflict. -/
theorem c3_clock_priority_witness :
    fix_clock_time_relative ⟨.str (.clockStr 9 30), .none⟩ .start (some 100) 0 []
        Option.none 0 =
      (⟨.dt 570, .none⟩, some 570, []) :=
  c3_clock_priority ⟨.str (.clockStr 9 30), .none⟩ .start (some 100) 0 []
    Option.none 0 (.clockStr 9 30) (9, 30) rfl rfl

/-- C2 counterexample: a failing batch whose fact is nevertheless mutated:
with `start = "garbage"` and `end` absent, the call aborts (one conflict),
yet the blank-fill pass has already overwritten `end` with `now` — on
failure the facts are NOT all left with their fields unoverwritten. -/
theorem c2_counterexample :
    must_complete_times ⟨fun _ => Option.none, fun _ => Option.none, 570⟩
        [⟨.str (.junk "garbage"), .none⟩] false =
      .barf [⟨.str (.junk "garbage"), .dt 570⟩]
        [⟨0, Option.none, .couldNotTranslate .start⟩] ∧
    (⟨.str (.junk "garbage"), .dt 570⟩ : Fact).end_ ≠
      (⟨.str (.junk "garbage"), .none⟩ : Fact).end_ := by
  refine ⟨by decide, by decide⟩

/-- C2 (amended): the operation is atomic with respect to conflict
reporting: an empty batch is a no-op; a fatal integrity error aborts with
no conflict; otherwise the four passes run to completion and the call
either fully succeeds (the accumulated conflict set of all four passes is
empty) or fully fails via `barf` carrying exactly that complete accumulated
set — never a prefix of it.  (Nothing is ever written to the store: the
model's store interface is read-only, mirroring the source, where
persistence happens only after this function returns.)  On failure,
however, facts may retain partially resolved, overwritten fields. -/
theorem c2_accumulate_then_barf (store : Store) (facts : List Fact)
    (ok : Bool) :
    (facts = [] ∧ must_complete_times store facts ok = .ok facts) ∨
    (∃ e, must_complete_times store facts ok = .fatal e) ∨
    (∃ fs1 cs1 fs2 cs2 fs3 cs3 cs4,
      fix_clock_times_relative facts (antecedent_fact store facts)
          (subsequent_fact store facts) ok = .ok (fs1, cs1) ∧
      fix_delta_times_relative fs1 (antecedent_fact store facts)
          (subsequent_fact store facts) ok = .ok (fs2, cs2) ∧
      fix_blank_times_relative store.now fs2 (antecedent_fact store facts)
          (subsequent_fact store facts) ok = .ok (fs3, cs3) ∧
      verify_datetimes_sanity fs3 (antecedent_fact store facts)
          (subsequent_fact store facts) ok (cs1 ++ cs2 ++ cs3) = .ok cs4 ∧
      ((cs1 ++ cs2 ++ cs3 ++ cs4 = [] ∧
          must_complete_times store facts ok = .ok fs3) ∨
       (cs1 ++ cs2 ++ cs3 ++ cs4 ≠ [] ∧
          must_complete_times store facts ok =
            .barf fs3 (cs1 ++ cs2 ++ cs3 ++ cs4)))) := by
  by_cases hemp : facts.isEmpty
  · exact Or.inl ⟨List.isEmpty_iff.mp hemp,
      by simp [must_complete_times, hemp]⟩
  cases h1 : fix_clock_times_relative facts (antecedent_fact store facts)
      (subsequent_fact store facts) ok with
  | error e =>
    refine Or.inr (Or.inl ⟨e, ?_⟩)
    have hm : mct_passes store facts ok = .error e := by
      unfold mct_passes
      simp only [Bind.bind, Except.bind, h1]
    simp [must_complete_times, hemp, hm]
  | ok p1 =>
  obtain ⟨fs1, cs1⟩ := p1
  cases h2 : fix_delta_times_relative fs1 (antecedent_fact store facts)
      (subsequent_fact store facts) ok with
  | error e =>
    refine Or.inr (Or.inl ⟨e, ?_⟩)
    have hm : mct_passes store facts ok = .error e := by
      unfold mct_passes
      simp only [Bind.bind, Except.bind, h1, h2]
    simp [must_complete_times, hemp, hm]
  | ok p2 =>
  obtain ⟨fs2, cs2⟩ := p2
  cases h3 : fix_blank_times_relative store.now fs2 (antecedent_fact store facts)
      (subsequent_fact store facts) ok with
  | error e =>
    refine Or.inr (Or.inl ⟨e, ?_⟩)
    have hm : mct_passes store facts ok = .error e := by
      unfold mct_passes
      simp only [Bind.bind, Except.bind, h1, h2, h3]
    simp [must_complete_times, hemp, hm]
  | ok p3 =>
  obtain ⟨fs3, cs3⟩ := p3
  cases h4 : verify_datetimes_sanity fs3 (antecedent_fact store facts)
      (subsequent_fact store facts) ok (cs1 ++ cs2 ++ cs3) with
  | error e =>
    refine Or.inr (Or.inl ⟨e, ?_⟩)
    have hm : mct_passes store facts ok = .error e := by
      unfold mct_passes
      simp only [Bind.bind, Except.bind, h1, h2, h3, h4]
    simp [must_complete_times, hemp, hm]
  | ok cs4 =>
  have hm : mct_passes store facts ok = .ok (fs3, cs1 ++ cs2 ++ cs3 ++ cs4) := by
    unfold mct_passes
    simp only [Bind.bind, Except.bind, h1, h2, h3, h4]
  have hmc : must_complete_times store facts ok =
      (if (cs1 ++ cs2 ++ cs3 ++ cs4).isEmpty then MCTResult.ok fs3
       else MCTResult.barf fs3 (cs1 ++ cs2 ++ cs3 ++ cs4)) := by
    unfold must_complete_times
    rw [if_neg (by simpa using hemp)]
    rw [hm]
  refine Or.inr (Or.inr ⟨fs1, cs1, fs2, cs2, fs3, cs3, cs4, rfl, h2, h3, h4, ?_⟩)
  by_cases hcs : cs1 ++ cs2 ++ cs3 ++ cs4 = []
  · refine Or.inl ⟨hcs, ?_⟩
    rw [hmc, hcs]
    rfl
  · refine Or.inr ⟨hcs, ?_⟩
    rw [hmc, if_neg (by simpa [List.isEmpty_iff] using hcs)]

/-! ## C6: idempotence of no-op resolution -/

/-- The cursor bound of `resolvedSortedB`: the fact's start is at or after
the bound, when there is one. -/
def prevOkB : Option DT → DT → Bool
  | some p, s => decide (p ≤ s)
  | Option.none, _ => true

/-- Characterization of `prevOkB`. -/
theorem prevOkB_iff (prev : Option DT) (s : DT) :
    prevOkB prev s = true ↔ ∀ p, prev = some p → p ≤ s := by
  cases prev <;> simp [prevOkB]

/-- The claim's hypothesis on the batch, as an executable predicate: every
fact already carries two concrete timestamps, each fact's `start <= end`,
consecutive facts do not overlap (`end <= next.start`), and the first fact
starts no earlier than the given bound (`none` meaning unbounded). -/
def resolvedSortedB : Option DT → List Fact → Bool
  | _, [] => true
  | prev, f :: fs =>
    match f.start, f.end_ with
    | .dt s, .dt e => prevOkB prev s && decide (s ≤ e) && resolvedSortedB (some e) fs
    | _, _ => false

/-- Destructor for `resolvedSortedB` on a non-empty batch. -/
theorem resolvedSortedB_cons (prev : Option DT) (f : Fact) (fs : List Fact)
    (h : resolvedSortedB prev (f :: fs) = true) :
    ∃ s e, f.start = .dt s ∧ f.end_ = .dt e ∧
      (∀ p, prev = some p → p ≤ s) ∧ s ≤ e ∧
      resolvedSortedB (some e) fs = true := by
  cases hfs : f.start <;> cases hfe : f.end_ <;>
    simp only [resolvedSortedB, hfs, hfe, Bool.and_eq_true, decide_eq_true_eq,
      Bool.false_eq_true] at h
  exact ⟨_, _, rfl, rfl, (prevOkB_iff prev _).mp h.1.1, h.1.2, h.2⟩

/-- Every fact of a `resolvedSortedB` batch carries two concrete
timestamps. -/
theorem resolvedSortedB_concrete : ∀ (prev : Option DT) (fs : List Fact),
    resolvedSortedB prev fs = true →
    ∀ f ∈ fs, (∃ s, f.start = .dt s) ∧ (∃ e, f.end_ = .dt e) := by
  intro prev fs
  induction fs generalizing prev with
  | nil => intro _ f hf; cases hf
  | cons f fs ih =>
    intro h g hg
    obtain ⟨s, e, hfs, hfe, _, _, hrest⟩ := resolvedSortedB_cons prev f fs h
    rcases List.mem_cons.mp hg with rfl | hg
    · exact ⟨⟨s, hfs⟩, ⟨e, hfe⟩⟩
    · exact ih (some e) hrest g hg

/-- The clock-time pass does not touch a batch of concrete timestamps and
appends no conflicts. -/
theorem fix_clock_walk_concrete (seqt : Option StoredFact) :
    ∀ (fs : List Fact) (i : Nat) (prev : Option DT),
    (∀ f ∈ fs, (∃ s, f.start = .dt s) ∧ (∃ e, f.end_ = .dt e)) →
    ∃ p, fix_clock_walk seqt i prev fs = (fs, p, []) := by
  intro fs
  induction fs with
  | nil => exact fun i prev _ => ⟨prev, rfl⟩
  | cons f fs ih =>
    intro i prev hall
    obtain ⟨⟨s, hs⟩, ⟨e, he⟩⟩ := hall f (List.mem_cons_self f fs)
    obtain ⟨p, hw⟩ := ih (i + 1) (some e)
      (fun g hg => hall g (List.mem_cons_of_mem _ hg))
    refine ⟨p, ?_⟩
    have h1 : fix_clock_time_relative f .start prev (i + 1) fs seqt i
        = (f, some s, []) := by
      simp [fix_clock_time_relative, getattr, hs]
    have h2 : fix_clock_time_relative f .end_ (some s) (i + 1) fs seqt i
        = (f, some e, []) := by
      simp [fix_clock_time_relative, getattr, he]
    simp [fix_clock_walk, h1, h2, hw]

/-- The relative-delta pass does not touch a batch of concrete timestamps
and appends no conflicts. -/
theorem fix_delta_walk_concrete (seqt : Option StoredFact) :
    ∀ (fs : List Fact) (i : Nat) (prev : Option DT),
    (∀ f ∈ fs, (∃ s, f.start = .dt s) ∧ (∃ e, f.end_ = .dt e)) →
    ∃ p, fix_delta_walk seqt i prev fs = (fs, p, []) := by
  intro fs
  induction fs with
  | nil => exact fun i prev _ => ⟨prev, rfl⟩
  | cons f fs ih =>
    intro i prev hall
    obtain ⟨⟨s, hs⟩, ⟨e, he⟩⟩ := hall f (List.mem_cons_self f fs)
    obtain ⟨p, hw⟩ := ih (i + 1) (some e)
      (fun g hg => hall g (List.mem_cons_of_mem _ hg))
    refine ⟨p, ?_⟩
    have h1 : fix_delta_time_relative f .start prev (i + 1) fs seqt i
        = (f, some s, []) := by
      simp [fix_delta_time_relative, getattr, hs]
    have h2 : fix_delta_time_relative f .end_ (some s) (i + 1) fs seqt i
        = (f, some e, []) := by
      simp [fix_delta_time_relative, getattr, he]
    simp [fix_delta_walk, h1, h2, hw]

/-- The blank-fill pass does not touch a batch of concrete timestamps and
appends no conflicts. -/
theorem fix_blank_walk_concrete (now : DT) (seqt : Option StoredFact) :
    ∀ (fs : List Fact) (i : Nat) (prev : Option DT),
    (∀ f ∈ fs, (∃ s, f.start = .dt s) ∧ (∃ e, f.end_ = .dt e)) →
    ∃ p, fix_blank_walk now seqt i prev fs = .ok (fs, p, []) := by
  intro fs
  induction fs with
  | nil => exact fun i prev _ => ⟨prev, rfl⟩
  | cons f fs ih =>
    intro i prev hall
    obtain ⟨⟨s, hs⟩, ⟨e, he⟩⟩ := hall f (List.mem_cons_self f fs)
    obtain ⟨p, hw⟩ := ih (i + 1) (some e)
      (fun g hg => hall g (List.mem_cons_of_mem _ hg))
    refine ⟨p, ?_⟩
    have h1 : fix_blank_time_relative now f .start prev (i + 1) fs seqt i
        = (f, some s, []) := by
      simp [fix_blank_time_relative, getattr, hs]
    have h2 : fix_blank_time_relative now f .end_ (some s) (i + 1) fs seqt i
        = (f, some e, []) := by
      simp [fix_blank_time_relative, getattr, he]
    simp [fix_blank_walk, hs, he, TimeVal.truthy, h1, h2, hw]

/-- `find_next_datetime` on a batch suffix whose head has a concrete
start. -/
theorem find_next_datetime_cons_dt (k : Nat) (g : Fact) (gs : List Fact)
    (seqt : Option StoredFact) (tg : DT) (hg : g.start = .dt tg) :
    find_next_datetime k (g :: gs) seqt = some (tg, .newF k) := by
  simp [find_next_datetime, hg]

/-- The sanity pass appends no conflicts and never trips its assertions on
a correctly ordered, fully concrete batch with no subsequent fact. -/
theorem verify_sanity_walk_sorted :
    ∀ (fs : List Fact) (i : Nat) (prev : Option DT) (pref : Option FactRef)
      (csAcc : List Conflict),
    resolvedSortedB prev fs = true →
    verify_sanity_walk Option.none i prev pref csAcc fs = .ok [] := by
  intro fs
  induction fs with
  | nil => intro i prev pref csAcc _; rfl
  | cons f fs ih =>
    intro i prev pref csAcc h
    obtain ⟨s, e, hs, he, hp, hse, hrest⟩ := resolvedSortedB_cons prev f fs h
    have ha1 : sanity_start_check i pref prev s = [] := by
      cases hprev : prev with
      | none => rfl
      | some p =>
        simp [sanity_start_check, if_neg (not_lt.mpr (hp p hprev))]
    have ha2 : sanity_end_check i fs Option.none e = [] := by
      cases fs with
      | nil => rfl
      | cons g gs =>
        obtain ⟨s2, e2, hgs, _, hp2, _, _⟩ :=
          resolvedSortedB_cons (some e) g gs hrest
        rw [sanity_end_check,
          find_next_datetime_cons_dt (i + 1) g gs Option.none s2 hgs]
        simp [if_neg (not_lt.mpr (hp2 e rfl))]
    have ha3 : sanity_order_check i f (1 + 1) = [] := by
      simp [sanity_order_check, hs, he, if_neg (not_lt.mpr hse)]
    have ihr := ih (i + 1) (some e) (some (.newF i)) csAcc hrest
    have ihr2 := ih (i + 1) (some e) (some (.newF i)) (csAcc ++ [] ++ [] ++ []) hrest
    simp [verify_sanity_walk, hs, he, TimeVal.truthy, ha1, ha2, ha3, ihr, ihr2]

/-- With a store reporting no neighbors at all, no antecedent is ever
found. -/
theorem antecedent_fact_none (store : Store)
    (hante : ∀ t, store.antecedent t = Option.none) :
    ∀ fs : List Fact, antecedent_fact store fs = Option.none := by
  intro fs
  induction fs with
  | nil => rfl
  | cons f fs ih =>
    cases hfs : f.start <;> cases hfe : f.end_ <;>
      simp [antecedent_fact, hfs, hfe, hante, ih]

/-- With a store reporting no neighbors at all, no subsequent fact is ever
found. -/
theorem subsequent_fact_none (store : Store)
    (hseqt : ∀ t, store.subsequent t = Option.none) :
    ∀ fs : List Fact, subsequent_fact store fs = Option.none := by
  have hscan : ∀ fs : List Fact, subsequent_scan store fs = Option.none := by
    intro fs
    induction fs with
    | nil => rfl
    | cons f fs ih =>
      cases hfs : f.start <;> cases hfe : f.end_ <;>
        simp [subsequent_scan, hfs, hfe, hseqt, ih]
  intro fs
  exact hscan fs.reverse

/-- C6: a batch in which every fact already has two concrete, correctly
ordered timestamps (`start <= end` within each fact, `end <= next.start`
between consecutive facts), against a store reporting no antecedent and no
subsequent fact, resolves with zero conflicts, no error, and every
timestamp unchanged. -/
theorem c6_noop_resolution_idempotent (store : Store) (facts : List Fact)
    (ongoing_okay : Bool)
    (hante : ∀ t, store.antecedent t = Option.none)
    (hseqt : ∀ t, store.subsequent t = Option.none)
    (hsorted : resolvedSortedB Option.none facts = true) :
    must_complete_times store facts ongoing_okay = .ok facts := by
  by_cases hemp : facts.isEmpty
  · simp [must_complete_times, hemp]
  have hA : antecedent_fact store facts = Option.none :=
    antecedent_fact_none store hante facts
  have hS : subsequent_fact store facts = Option.none :=
    subsequent_fact_none store hseqt facts
  have hconc := resolvedSortedB_concrete Option.none facts hsorted
  have hpl : ∀ gs : List Fact,
      prev_and_later gs Option.none Option.none ongoing_okay
        = .ok Option.none := fun _ => rfl
  obtain ⟨p1, hw1⟩ := fix_clock_walk_concrete Option.none facts 0 Option.none hconc
  obtain ⟨p2, hw2⟩ := fix_delta_walk_concrete Option.none facts 0 Option.none hconc
  obtain ⟨p3, hw3⟩ :=
    fix_blank_walk_concrete store.now Option.none facts 0 Option.none hconc
  have hsan := verify_sanity_walk_sorted facts 0 Option.none
    ((Option.none : Option StoredFact).map (fun _ => FactRef.ante)) [] hsorted
  have hm : mct_passes store facts ongoing_okay = .ok (facts, []) := by
    unfold mct_passes fix_clock_times_relative fix_delta_times_relative
      fix_blank_times_relative verify_datetimes_sanity
    simp only [hA, hS, hpl, Bind.bind, Except.bind, hw1, hw2, hw3,
      List.append_nil, List.nil_append, hsan]
  simp [must_complete_times, hemp, hm]

/-- C6 witness: a two-fact, already-resolved, correctly ordered batch with
an empty store is returned unchanged with zero conflicts. -/
theorem c6_noop_resolution_idempotent_witness :
    must_complete_times ⟨fun _ => Option.none, fun _ => Option.none, 1000⟩
        [⟨.dt 0, .dt 10⟩, ⟨.dt 10, .dt 20⟩] false =
      .ok [⟨.dt 0, .dt 10⟩, ⟨.dt 10, .dt 20⟩] :=
  c6_noop_resolution_idempotent _ _ false (fun _ => rfl) (fun _ => rfl)
    (by decide)

/-! ## Structural lemmas about the passes -/

/-- `getattr` on `start`. -/
@[simp] theorem getattr_start (f : Fact) : getattr f .start = f.start := rfl

/-- `getattr` on `end`. -/
@[simp] theorem getattr_end (f : Fact) : getattr f .end_ = f.end_ := rfl

/-- `setattr` on `start` leaves `end` unchanged. -/
@[simp] theorem setattr_start_end (f : Fact) (v : TimeVal) :
    (setattr f .start v).end_ = f.end_ := rfl

/-- `setattr` on `start` overwrites `start`. -/
@[simp] theorem setattr_start_start (f : Fact) (v : TimeVal) :
    (setattr f .start v).start = v := rfl

/-- `setattr` on `end` leaves `start` unchanged. -/
@[simp] theorem setattr_end_start (f : Fact) (v : TimeVal) :
    (setattr f .end_ v).start = f.start := rfl

/-- `setattr` on `end` overwrites `end`. -/
@[simp] theorem setattr_end_end (f : Fact) (v : TimeVal) :
    (setattr f .end_ v).end_ = v := rfl

/-- The clock-time pass preserves the batch length. -/
theorem fix_clock_walk_length (seqt : Option StoredFact) :
    ∀ (fs : List Fact) (i : Nat) (prev : Option DT),
    (fix_clock_walk seqt i prev fs).1.length = fs.length := by
  intro fs
  induction fs with
  | nil => intro i prev; rfl
  | cons f fs ih =>
    intro i prev
    rcases hO1 : fix_clock_time_relative f .start prev (i + 1) fs seqt i with
      ⟨f1, p1, c1⟩
    rcases hO2 : fix_clock_time_relative f1 .end_ p1 (i + 1) fs seqt i with
      ⟨f2, p2, c2⟩
    rcases hW : fix_clock_walk seqt (i + 1) p2 fs with ⟨fs2, p3, c3⟩
    have hlen : fs2.length = fs.length := by
      have := ih (i + 1) p2
      rw [hW] at this
      exact this
    simp [fix_clock_walk, hO1, hO2, hW, hlen]

/-- The relative-delta pass preserves the batch length. -/
theorem fix_delta_walk_length (seqt : Option StoredFact) :
    ∀ (fs : List Fact) (i : Nat) (prev : Option DT),
    (fix_delta_walk seqt i prev fs).1.length = fs.length := by
  intro fs
  induction fs with
  | nil => intro i prev; rfl
  | cons f fs ih =>
    intro i prev
    rcases hO1 : fix_delta_time_relative f .start prev (i + 1) fs seqt i with
      ⟨f1, p1, c1⟩
    rcases hO2 : fix_delta_time_relative f1 .end_ p1 (i + 1) fs seqt i with
      ⟨f2, p2, c2⟩
    rcases hW : fix_delta_walk seqt (i + 1) p2 fs with ⟨fs2, p3, c3⟩
    have hlen : fs2.length = fs.length := by
      have := ih (i + 1) p2
      rw [hW] at this
      exact this
    simp [fix_delta_walk, hO1, hO2, hW, hlen]

/-- Unfolding equation for the blank-fill walk on a non-empty batch. -/
theorem fix_blank_walk_cons (now : DT) (seqt : Option StoredFact) (i : Nat)
    (prev : Option DT) (f : Fact) (fs : List Fact) :
    fix_blank_walk now seqt i prev (f :: fs) =
      if !f.start.truthy && !f.end_.truthy then .error .blankMissingBoth
      else
        match fix_blank_time_relative now f .start prev (i + 1) fs seqt i with
        | (f1, p1, c1) =>
          match fix_blank_time_relative now f1 .end_ p1 (i + 1) fs seqt i with
          | (f2, p2, c2) =>
            match fix_blank_walk now seqt (i + 1) p2 fs with
            | .error e => .error e
            | .ok (fs2, p3, c3) => .ok (f2 :: fs2, p3, c1 ++ c2 ++ c3) := rfl

/-- A successful blank-fill step decomposes into its two attribute fixes
and the recursive walk. -/
theorem fix_blank_walk_cons_ok (now : DT) (seqt : Option StoredFact) (i : Nat)
    (prev : Option DT) (f : Fact) (fs : List Fact) (fs' : List Fact)
    (p' : Option DT) (cs : List Conflict)
    (h : fix_blank_walk now seqt i prev (f :: fs) = .ok (fs', p', cs)) :
    ∃ f1 p1 c1 f2 p2 c2 fs2 p3 c3,
      fix_blank_time_relative now f .start prev (i + 1) fs seqt i = (f1, p1, c1) ∧
      fix_blank_time_relative now f1 .end_ p1 (i + 1) fs seqt i = (f2, p2, c2) ∧
      fix_blank_walk now seqt (i + 1) p2 fs = .ok (fs2, p3, c3) ∧
      fs' = f2 :: fs2 ∧ p' = p3 ∧ cs = c1 ++ c2 ++ c3 := by
  rw [fix_blank_walk_cons] at h
  by_cases hc : (!f.start.truthy && !f.end_.truthy) = true
  · rw [if_pos hc] at h
    simp at h
  rw [if_neg hc] at h
  rcases hO1 : fix_blank_time_relative now f .start prev (i + 1) fs seqt i with
    ⟨f1, p1, c1⟩
  simp only [hO1] at h
  rcases hO2 : fix_blank_time_relative now f1 .end_ p1 (i + 1) fs seqt i with
    ⟨f2, p2, c2⟩
  simp only [hO2] at h
  cases hW : fix_blank_walk now seqt (i + 1) p2 fs with
  | error e =>
    simp only [hW] at h
    simp at h
  | ok q =>
    rcases q with ⟨fs2, p3, c3⟩
    simp only [hW, Except.ok.injEq, Prod.mk.injEq] at h
    exact ⟨f1, p1, c1, f2, p2, c2, fs2, p3, c3, rfl, hO2, hW,
      h.1.symm, h.2.1.symm, h.2.2.symm⟩

/-- The blank-fill pass preserves the batch length. -/
theorem fix_blank_walk_length (now : DT) (seqt : Option StoredFact) :
    ∀ (fs : List Fact) (i : Nat) (prev : Option DT) (fs' : List Fact)
      (p' : Option DT) (cs : List Conflict),
    fix_blank_walk now seqt i prev fs = .ok (fs', p', cs) →
    fs'.length = fs.length := by
  intro fs
  induction fs with
  | nil =>
    intro i prev fs' p' cs h
    simp only [fix_blank_walk, Except.ok.injEq, Prod.mk.injEq] at h
    rw [← h.1]
  | cons f fs ih =>
    intro i prev fs' p' cs h
    obtain ⟨f1, p1, c1, f2, p2, c2, fs2, p3, c3, _, _, hW, rfl, _, _⟩ :=
      fix_blank_walk_cons_ok now seqt i prev f fs fs' p' cs h
    simp [ih (i + 1) p2 fs2 p3 c3 hW]

/-- The `prev_and_later` checks depend on the batch only through its
length. -/
theorem prev_and_later_congr (gs hs : List Fact) (ante seqt : Option StoredFact)
    (ok : Bool) (hlen : gs.length = hs.length) :
    prev_and_later gs ante seqt ok = prev_and_later hs ante seqt ok := by
  unfold prev_and_later
  rw [hlen]

/-- The fatal errors of `prev_and_later` are the two storage-integrity
modes. -/
theorem prev_and_later_error (gs : List Fact) (ante seqt : Option StoredFact)
    (ok : Bool) (e : Fatal) (h : prev_and_later gs ante seqt ok = .error e) :
    e = .anteEndless ∨ e = .seqtStartless := by
  unfold prev_and_later checkSeqt at h
  repeat' split at h
  all_goals simp_all

/-- A fatal clock-time pass is a fatal `prev_and_later`. -/
theorem fix_clock_times_relative_error (facts : List Fact)
    (ante seqt : Option StoredFact) (ok : Bool) (e : Fatal)
    (h : fix_clock_times_relative facts ante seqt ok = .error e) :
    prev_and_later facts ante seqt ok = .error e := by
  unfold fix_clock_times_relative at h
  cases hpl : prev_and_later facts ante seqt ok with
  | error e2 =>
    simp only [Bind.bind, Except.bind, hpl] at h
    injection h with h
    rw [h]
  | ok prev =>
    simp only [Bind.bind, Except.bind, hpl] at h
    rcases hW : fix_clock_walk seqt 0 prev facts with ⟨fs2, p2, c2⟩
    simp only [hW] at h
    simp at h

/-- A fatal relative-delta pass is a fatal `prev_and_later`. -/
theorem fix_delta_times_relative_error (facts : List Fact)
    (ante seqt : Option StoredFact) (ok : Bool) (e : Fatal)
    (h : fix_delta_times_relative facts ante seqt ok = .error e) :
    prev_and_later facts ante seqt ok = .error e := by
  unfold fix_delta_times_relative at h
  cases hpl : prev_and_later facts ante seqt ok with
  | error e2 =>
    simp only [Bind.bind, Except.bind, hpl] at h
    injection h with h
    rw [h]
  | ok prev =>
    simp only [Bind.bind, Except.bind, hpl] at h
    rcases hW : fix_delta_walk seqt 0 prev facts with ⟨fs2, p2, c2⟩
    simp only [hW] at h
    simp at h

/-- The blank-fill walk can only fail with its own assertion mode. -/
theorem fix_blank_walk_error (now : DT) (seqt : Option StoredFact) :
    ∀ (fs : List Fact) (i : Nat) (prev : Option DT) (e : Fatal),
    fix_blank_walk now seqt i prev fs = .error e → e = .blankMissingBoth := by
  intro fs
  induction fs with
  | nil =>
    intro i prev e h
    simp [fix_blank_walk] at h
  | cons f fs ih =>
    intro i prev e h
    rw [fix_blank_walk_cons] at h
    by_cases hc : (!f.start.truthy && !f.end_.truthy) = true
    · rw [if_pos hc] at h
      injection h with h
      exact h.symm
    rw [if_neg hc] at h
    rcases hO1 : fix_blank_time_relative now f .start prev (i + 1) fs seqt i with
      ⟨f1, p1, c1⟩
    simp only [hO1] at h
    rcases hO2 : fix_blank_time_relative now f1 .end_ p1 (i + 1) fs seqt i with
      ⟨f2, p2, c2⟩
    simp only [hO2] at h
    cases hW : fix_blank_walk now seqt (i + 1) p2 fs with
    | error e2 =>
      simp only [hW] at h
      injection h with h
      rw [← h]
      exact ih (i + 1) p2 e2 hW
    | ok q =>
      rcases q with ⟨fs2, p3, c3⟩
      simp only [hW] at h
      simp at h

/-- The fatal errors of the blank-fill pass. -/
theorem fix_blank_times_relative_error (now : DT) (facts : List Fact)
    (ante seqt : Option StoredFact) (ok : Bool) (e : Fatal)
    (h : fix_blank_times_relative now facts ante seqt ok = .error e) :
    e = .anteEndless ∨ e = .seqtStartless ∨ e = .blankMissingBoth := by
  unfold fix_blank_times_relative at h
  cases hpl : prev_and_later facts ante seqt ok with
  | error e2 =>
    simp only [Bind.bind, Except.bind, hpl] at h
    injection h with h
    subst h
    rcases prev_and_later_error facts ante seqt ok e2 hpl with h2 | h2 <;>
      rw [h2] <;> simp
  | ok prev =>
    simp only [Bind.bind, Except.bind, hpl] at h
    cases hW : fix_blank_walk now seqt 0 prev facts with
    | error e2 =>
      simp only [hW] at h
      injection h with h
      subst h
      rw [fix_blank_walk_error now seqt facts 0 prev e2 hW]
      simp
    | ok q =>
      rcases q with ⟨fs2, p2, c2⟩
      simp only [hW] at h
      simp at h

/-- A successful blank-fill pass decomposes into its cursor seed and its
walk. -/
theorem fix_blank_times_relative_ok (now : DT) (facts : List Fact)
    (ante seqt : Option StoredFact) (ok : Bool) (fs' : List Fact)
    (cs : List Conflict)
    (h : fix_blank_times_relative now facts ante seqt ok = .ok (fs', cs)) :
    ∃ prev p', prev_and_later facts ante seqt ok = .ok prev ∧
      fix_blank_walk now seqt 0 prev facts = .ok (fs', p', cs) := by
  unfold fix_blank_times_relative at h
  cases hpl : prev_and_later facts ante seqt ok with
  | error e2 =>
    simp only [Bind.bind, Except.bind, hpl] at h
    simp at h
  | ok prev =>
    simp only [Bind.bind, Except.bind, hpl] at h
    cases hW : fix_blank_walk now seqt 0 prev facts with
    | error e2 =>
      simp only [hW] at h
      simp at h
    | ok q =>
      rcases q with ⟨fs2, p2, c2⟩
      simp only [hW, Except.ok.injEq, Prod.mk.injEq] at h
      exact ⟨prev, p2, rfl, by rw [hW, h.1, h.2]⟩


/-! ## C8: the sanity pass's missing-field assertion always holds -/

/-- Fixing a blank `start` never touches `end`. -/
theorem fix_blank_start_end_unchanged (now : DT) (f : Fact) (prev : Option DT)
    (li : Nat) (later : List Fact) (seqt : Option StoredFact) (idx : Nat) :
    ((fix_blank_time_relative now f .start prev li later seqt idx).1).end_
      = f.end_ := by
  unfold fix_blank_time_relative
  cases hv : f.start with
  | dt t => simp [hv]
  | none => cases hp : prev <;> simp [hv, TimeVal.truthy]
  | str s =>
    by_cases hs : s.truthy = true
    · simp [hv, TimeVal.truthy, hs]
    · cases hp : prev <;> simp [hv, TimeVal.truthy, hs]

/-- Fixing a blank `end` never touches `start`. -/
theorem fix_blank_end_start_unchanged (now : DT) (f : Fact) (prev : Option DT)
    (li : Nat) (later : List Fact) (seqt : Option StoredFact) (idx : Nat) :
    ((fix_blank_time_relative now f .end_ prev li later seqt idx).1).start
      = f.start := by
  unfold fix_blank_time_relative
  cases hv : f.end_ with
  | dt t => simp [hv]
  | none =>
    cases hf : find_next_datetime li later seqt <;>
      simp [hv, TimeVal.truthy, hf]
  | str s =>
    by_cases hs : s.truthy = true
    · simp [hv, TimeVal.truthy, hs]
    · cases hf : find_next_datetime li later seqt <;>
        simp [hv, TimeVal.truthy, hs, hf]

/-- After the blank-fill step for `start`, a still-falsy `start` has a
conflict naming this fact among the appended conflicts. -/
theorem fix_blank_start_falsy_conflict (now : DT) (f : Fact) (prev : Option DT)
    (li : Nat) (later : List Fact) (seqt : Option StoredFact) (idx : Nat) :
    ((fix_blank_time_relative now f .start prev li later seqt idx).1).start.truthy
        = false →
    ∃ c ∈ (fix_blank_time_relative now f .start prev li later seqt idx).2.2,
      c.fact = idx := by
  unfold fix_blank_time_relative
  cases hv : f.start with
  | dt t => simp [hv, TimeVal.truthy]
  | none => cases hp : prev <;> simp [hv, TimeVal.truthy]
  | str s =>
    by_cases hs : s.truthy = true
    · simp [hv, TimeVal.truthy, hs]
    · cases hp : prev <;> simp [hv, TimeVal.truthy, hs]

/-- After the blank-fill step for `end`, the `end` attribute is always
truthy: a concrete time stays, a truthy leftover string stays, and a blank
is filled from the forward scan or from `now`. -/
theorem fix_blank_end_truthy (now : DT) (f : Fact) (prev : Option DT)
    (li : Nat) (later : List Fact) (seqt : Option StoredFact) (idx : Nat) :
    ((fix_blank_time_relative now f .end_ prev li later seqt idx).1).end_.truthy
      = true := by
  unfold fix_blank_time_relative
  cases hv : f.end_ with
  | dt t => simp [hv, TimeVal.truthy]
  | none =>
    cases hf : find_next_datetime li later seqt <;>
      simp [hv, TimeVal.truthy, hf]
  | str s =>
    by_cases hs : s.truthy = true
    · simp [hv, TimeVal.truthy, hs]
    · cases hf : find_next_datetime li later seqt <;>
        simp [hv, TimeVal.truthy, hs, hf]

/-- Invariant established by the blank-fill walk: afterwards every fact has
a truthy `end`, and every fact whose `start` is still falsy has an appended
conflict naming it. -/
theorem fix_blank_walk_inv (now : DT) (seqt : Option StoredFact) :
    ∀ (fs : List Fact) (i : Nat) (prev : Option DT) (fs' : List Fact)
      (p' : Option DT) (app : List Conflict),
    fix_blank_walk now seqt i prev fs = .ok (fs', p', app) →
    ∀ j (hj : j < fs'.length),
      ((fs'.get ⟨j, hj⟩).start.truthy = false →
        ∃ c ∈ app, c.fact = i + j) ∧
      (fs'.get ⟨j, hj⟩).end_.truthy = true := by
  intro fs
  induction fs with
  | nil =>
    intro i prev fs' p' app h j hj
    simp only [fix_blank_walk, Except.ok.injEq, Prod.mk.injEq] at h
    rw [← h.1] at hj
    exact absurd hj (by simp)
  | cons f fs ih =>
    intro i prev fs' p' app h j hj
    obtain ⟨f1, p1, c1, f2, p2, c2, fs2, p3, c3, hO1, hO2, hW, hfs', hp, happ⟩ :=
      fix_blank_walk_cons_ok now seqt i prev f fs fs' p' app h
    subst hfs'
    subst happ
    cases j with
    | zero =>
      constructor
      · intro hfalsy
        have hstart21 : f2.start = f1.start := by
          have hu := fix_blank_end_start_unchanged now f1 p1 (i + 1) fs seqt i
          rw [hO2] at hu
          exact hu
        have hf1 : f1.start.truthy = false := by
          rw [← hstart21]
          simpa using hfalsy
        have hc := fix_blank_start_falsy_conflict now f prev (i + 1) fs seqt i
        rw [hO1] at hc
        obtain ⟨c, hc1, hc2⟩ := hc hf1
        exact ⟨c, by
          simp only [List.append_assoc, List.mem_append]
          exact Or.inl hc1, by simpa using hc2⟩
      · have he := fix_blank_end_truthy now f1 p1 (i + 1) fs seqt i
        rw [hO2] at he
        simpa using he
    | succ j =>
      have hjj : j < fs2.length := by simpa using hj
      obtain ⟨h1, h2⟩ := ih (i + 1) p2 fs2 p3 c3 hW j hjj
      constructor
      · intro hfalsy
        obtain ⟨c, hc1, hc2⟩ := h1 (by simpa using hfalsy)
        refine ⟨c, ?_, by omega⟩
        simp only [List.append_assoc, List.mem_append]
        exact Or.inr (Or.inr hc1)
      · simpa using h2

/-- The missing-field assertion passes when some accumulated conflict
names the fact. -/
theorem missing_caught_of_mem (i : Nat) (csAcc : List Conflict) (c : Conflict)
    (hc : c ∈ csAcc) (hf : c.fact = i) :
    verify_datetimes_missing_already_caught i csAcc = .ok () := by
  have hlen : 0 < (csAcc.filter (fun c => c.fact == i)).length :=
    List.length_pos.mpr
      (List.ne_nil_of_mem (List.mem_filter.mpr ⟨hc, by simp [hf]⟩))
  simp [verify_datetimes_missing_already_caught, hlen]

/-- Unfolding equation for the sanity walk on a non-empty batch. -/
theorem verify_sanity_walk_cons (seqt : Option StoredFact) (i : Nat)
    (prev : Option DT) (pref : Option FactRef) (csAcc : List Conflict)
    (f : Fact) (fs : List Fact) :
    verify_sanity_walk seqt i prev pref csAcc (f :: fs) =
      (let startRes : Except Fatal (Option DT × Nat × List Conflict) :=
        if !f.start.truthy then
          (verify_datetimes_missing_already_caught i csAcc).map
            (fun _ => (prev, 0, []))
        else
          match f.start with
          | .dt s => .ok (some s, 1, sanity_start_check i pref prev s)
          | _ => .ok (prev, 0, [])
      match startRes with
      | .error e => .error e
      | .ok (prev1, n1, a1) =>
        let endRes : Except Fatal (Option DT × Nat × List Conflict) :=
          if !f.end_.truthy then
            (verify_datetimes_missing_already_caught i (csAcc ++ a1)).map
              (fun _ => (prev1, 0, []))
          else
            match f.end_ with
            | .dt e => .ok (some e, 1, sanity_end_check i fs seqt e)
            | _ => .ok (prev1, 0, [])
        match endRes with
        | .error e => .error e
        | .ok (prev2, n2, a2) =>
          let a3 := sanity_order_check i f (n1 + n2)
          match verify_sanity_walk seqt (i + 1) prev2 (some (.newF i))
              (csAcc ++ a1 ++ a2 ++ a3) fs with
          | .error e => .error e
          | .ok rest => .ok (a1 ++ a2 ++ a3 ++ rest)) := rfl

/-- The sanity walk cannot fail when every fact has a truthy `end` and
every falsy `start` is already covered by an accumulated conflict. -/
theorem verify_sanity_walk_safe (seqt : Option StoredFact) :
    ∀ (fs : List Fact) (i : Nat) (prev : Option DT) (pref : Option FactRef)
      (csAcc : List Conflict),
    (∀ j (hj : j < fs.length), (fs.get ⟨j, hj⟩).start.truthy = false →
      ∃ c ∈ csAcc, c.fact = i + j) →
    (∀ j (hj : j < fs.length), (fs.get ⟨j, hj⟩).end_.truthy = true) →
    ∃ cs, verify_sanity_walk seqt i prev pref csAcc fs = .ok cs := by
  intro fs
  induction fs with
  | nil => intro i prev pref csAcc _ _; exact ⟨[], rfl⟩
  | cons f fs ih =>
    intro i prev pref csAcc hstart hend
    have hfe : f.end_.truthy = true := hend 0 (by simp)
    rw [verify_sanity_walk_cons]
    obtain ⟨prev1, n1, a1, hsr⟩ : ∃ prev1 n1 a1,
        (if !f.start.truthy then
          (verify_datetimes_missing_already_caught i csAcc).map
            (fun _ => (prev, 0, []))
        else
          match f.start with
          | .dt s => Except.ok (some s, 1, sanity_start_check i pref prev s)
          | _ => Except.ok (prev, 0, []))
        = Except.ok (prev1, n1, a1) := by
      by_cases hs : f.start.truthy = true
      · rw [if_neg (by simp [hs])]
        cases hv : f.start with
        | none => rw [hv] at hs; simp [TimeVal.truthy] at hs
        | dt s => exact ⟨some s, 1, sanity_start_check i pref prev s, rfl⟩
        | str s => exact ⟨prev, 0, [], rfl⟩
      · have hs' : f.start.truthy = false := by
          revert hs; cases f.start.truthy <;> simp
        obtain ⟨c, hc, hcf⟩ := hstart 0 (by simp) (by simpa using hs')
        rw [if_pos (by simp [hs'])]
        rw [missing_caught_of_mem i csAcc c hc (by simpa using hcf)]
        exact ⟨prev, 0, [], rfl⟩
    simp only [hsr]
    obtain ⟨prev2, n2, a2, her⟩ : ∃ prev2 n2 a2,
        (if !f.end_.truthy then
          (verify_datetimes_missing_already_caught i (csAcc ++ a1)).map
            (fun _ => (prev1, 0, []))
        else
          match f.end_ with
          | .dt e => Except.ok (some e, 1, sanity_end_check i fs seqt e)
          | _ => Except.ok (prev1, 0, []))
        = Except.ok (prev2, n2, a2) := by
      rw [if_neg (by simp [hfe])]
      cases hv : f.end_ with
      | none => rw [hv] at hfe; simp [TimeVal.truthy] at hfe
      | dt e => exact ⟨some e, 1, sanity_end_check i fs seqt e, rfl⟩
      | str s => exact ⟨prev1, 0, [], rfl⟩
    simp only [her]
    obtain ⟨rest, hrest⟩ := ih (i + 1) prev2 (some (.newF i))
      (csAcc ++ a1 ++ a2 ++ sanity_order_check i f (n1 + n2))
      (fun j hj hfalsy => by
        obtain ⟨c, hc, hcf⟩ := hstart (j + 1) (by simpa using hj)
          (by simpa using hfalsy)
        refine ⟨c, ?_, by omega⟩
        simp only [List.append_assoc, List.mem_append]
        exact Or.inl hc)
      (fun j hj => by
        have := hend (j + 1) (by simpa using hj)
        simpa using this)
    simp only [hrest]
    exact ⟨a1 ++ a2 ++ sanity_order_check i f (n1 + n2) ++ rest, rfl⟩

/-- Any fatal outcome of the four passes is one of the storage-integrity
or blank-assertion modes — never the sanity pass's missing-field
assertion. -/
theorem mct_passes_error_classified (store : Store) (facts : List Fact)
    (ok : Bool) (e : Fatal) (h : mct_passes store facts ok = .error e) :
    e ≠ .missingNotCaught := by
  cases h1 : fix_clock_times_relative facts (antecedent_fact store facts)
      (subsequent_fact store facts) ok with
  | error e1 =>
    have hm : mct_passes store facts ok = .error e1 := by
      unfold mct_passes
      simp only [Bind.bind, Except.bind, h1]
    rw [hm] at h
    injection h with h
    subst h
    rcases prev_and_later_error facts _ _ ok e1
      (fix_clock_times_relative_error facts _ _ ok e1 h1) with rfl | rfl <;> simp
  | ok p1 =>
  rcases p1 with ⟨fs1, cs1⟩
  cases h2 : fix_delta_times_relative fs1 (antecedent_fact store facts)
      (subsequent_fact store facts) ok with
  | error e2 =>
    have hm : mct_passes store facts ok = .error e2 := by
      unfold mct_passes
      simp only [Bind.bind, Except.bind, h1, h2]
    rw [hm] at h
    injection h with h
    subst h
    rcases prev_and_later_error fs1 _ _ ok e2
      (fix_delta_times_relative_error fs1 _ _ ok e2 h2) with rfl | rfl <;> simp
  | ok p2 =>
  rcases p2 with ⟨fs2, cs2⟩
  cases h3 : fix_blank_times_relative store.now fs2 (antecedent_fact store facts)
      (subsequent_fact store facts) ok with
  | error e3 =>
    have hm : mct_passes store facts ok = .error e3 := by
      unfold mct_passes
      simp only [Bind.bind, Except.bind, h1, h2, h3]
    rw [hm] at h
    injection h with h
    subst h
    rcases fix_blank_times_relative_error store.now fs2 _ _ ok e3 h3 with
      rfl | rfl | rfl <;> simp
  | ok p3 =>
  rcases p3 with ⟨fs3, cs3⟩
  cases h4 : verify_datetimes_sanity fs3 (antecedent_fact store facts)
      (subsequent_fact store facts) ok (cs1 ++ cs2 ++ cs3) with
  | ok cs4 =>
    have hm : mct_passes store facts ok = .ok (fs3, cs1 ++ cs2 ++ cs3 ++ cs4) := by
      unfold mct_passes
      simp only [Bind.bind, Except.bind, h1, h2, h3, h4]
    rw [hm] at h
    simp at h
  | error e4 =>
    have hm : mct_passes store facts ok = .error e4 := by
      unfold mct_passes
      simp only [Bind.bind, Except.bind, h1, h2, h3, h4]
    rw [hm] at h
    injection h with h
    subst h
    exfalso
    obtain ⟨prev, p', hpl2, hWb⟩ :=
      fix_blank_times_relative_ok store.now fs2 (antecedent_fact store facts)
        (subsequent_fact store facts) ok fs3 cs3 h3
    have hlen : fs3.length = fs2.length :=
      fix_blank_walk_length store.now (subsequent_fact store facts) fs2 0 prev
        fs3 p' cs3 hWb
    have hpl3 : prev_and_later fs3 (antecedent_fact store facts)
        (subsequent_fact store facts) ok = .ok prev := by
      rw [prev_and_later_congr fs3 fs2 (antecedent_fact store facts)
        (subsequent_fact store facts) ok hlen]
      exact hpl2
    have hinv := fix_blank_walk_inv store.now (subsequent_fact store facts)
      fs2 0 prev fs3 p' cs3 hWb
    obtain ⟨cssan, hsan⟩ := verify_sanity_walk_safe (subsequent_fact store facts)
      fs3 0 prev ((antecedent_fact store facts).map (fun _ => FactRef.ante))
      (cs1 ++ cs2 ++ cs3)
      (fun j hj hfalsy => by
        obtain ⟨c, hc, hcf⟩ := (hinv j hj).1 hfalsy
        refine ⟨c, ?_, hcf⟩
        simp only [List.append_assoc, List.mem_append]
        exact Or.inr (Or.inr hc))
      (fun j hj => (hinv j hj).2)
    unfold verify_datetimes_sanity at h4
    simp only [Bind.bind, Except.bind, hpl3] at h4
    rw [hsan] at h4
    simp at h4

/-- C8: the sanity pass's missing-field assertion
(`verify_datetimes_missing_already_caught`) always holds — whenever the
fourth pass encounters a fact with an absent `start` (and an absent `end`
cannot survive the blank-fill pass), an earlier pass has already
accumulated a conflict naming that same fact, and the pass appends no
duplicate conflict for the missing field; hence no run of
`must_complete_times` can end in that assertion's fatal mode. -/
theorem c8_missing_assert_never_fires (store : Store) (facts : List Fact)
    (ongoing_okay : Bool) :
    must_complete_times store facts ongoing_okay ≠ .fatal .missingNotCaught := by
  unfold must_complete_times
  by_cases hemp : facts.isEmpty
  · simp [hemp]
  rw [if_neg (by simpa using hemp)]
  cases hrun : mct_passes store facts ongoing_okay with
  | error e =>
    have hne := mct_passes_error_classified store facts ongoing_okay e hrun
    simp [hne]
  | ok p =>
    rcases p with ⟨fs, cs⟩
    by_cases hcs : cs.isEmpty <;> simp [hcs]

/-! ## C1: zero conflicts imply concreteness and chronological monotonicity -/

/-- A conflict-free blank-fill step for `start` leaves a concrete
`start`. -/
theorem fix_blank_start_nil_dt (now : DT) (f : Fact) (prev : Option DT)
    (li : Nat) (later : List Fact) (seqt : Option StoredFact) (idx : Nat)
    (h : (fix_blank_time_relative now f .start prev li later seqt idx).2.2 = []) :
    ∃ s, ((fix_blank_time_relative now f .start prev li later seqt idx).1).start
      = .dt s := by
  unfold fix_blank_time_relative at h ⊢
  cases hv : f.start with
  | dt t => simp [hv]
  | none => cases hp : prev <;> simp [hv, TimeVal.truthy, hp] at h ⊢
  | str s =>
    by_cases hs : s.truthy = true
    · simp [hv, TimeVal.truthy, hs] at h
    · cases hp : prev <;> simp [hv, TimeVal.truthy, hs, hp] at h ⊢

/-- A conflict-free blank-fill step for `end` leaves a concrete `end`. -/
theorem fix_blank_end_nil_dt (now : DT) (f : Fact) (prev : Option DT)
    (li : Nat) (later : List Fact) (seqt : Option StoredFact) (idx : Nat)
    (h : (fix_blank_time_relative now f .end_ prev li later seqt idx).2.2 = []) :
    ∃ e, ((fix_blank_time_relative now f .end_ prev li later seqt idx).1).end_
      = .dt e := by
  unfold fix_blank_time_relative at h ⊢
  cases hv : f.end_ with
  | dt t => simp [hv]
  | none =>
    cases hf : find_next_datetime li later seqt <;>
      simp [hv, TimeVal.truthy, hf]
  | str s =>
    by_cases hs : s.truthy = true
    · simp [hv, TimeVal.truthy, hs] at h
    · cases hf : find_next_datetime li later seqt <;>
        simp [hv, TimeVal.truthy, hs, hf]

/-- A conflict-free blank-fill walk leaves every fact fully concrete. -/
theorem fix_blank_walk_nil_concrete (now : DT) (seqt : Option StoredFact) :
    ∀ (fs : List Fact) (i : Nat) (prev : Option DT) (fs' : List Fact)
      (p' : Option DT),
    fix_blank_walk now seqt i prev fs = .ok (fs', p', []) →
    ∀ f ∈ fs', (∃ s, f.start = .dt s) ∧ (∃ e, f.end_ = .dt e) := by
  intro fs
  induction fs with
  | nil =>
    intro i prev fs' p' h f hf
    simp only [fix_blank_walk, Except.ok.injEq, Prod.mk.injEq] at h
    rw [← h.1] at hf
    cases hf
  | cons f fs ih =>
    intro i prev fs' p' h g hg
    obtain ⟨f1, p1, c1, f2, p2, c2, fs2, p3, c3, hO1, hO2, hW, hfs', hp, happ⟩ :=
      fix_blank_walk_cons_ok now seqt i prev f fs fs' p' [] h
    obtain ⟨hc1, hc2, hc3⟩ : c1 = [] ∧ c2 = [] ∧ c3 = [] := by
      have := happ.symm
      simp only [List.append_eq_nil] at this
      exact ⟨this.1.1, this.1.2, this.2⟩
    subst hfs'
    rcases List.mem_cons.mp hg with rfl | hg
    · constructor
      · obtain ⟨s, hs⟩ := fix_blank_start_nil_dt now f prev (i + 1) fs seqt i
          (by rw [hO1, hc1])
        rw [hO1] at hs
        have hu := fix_blank_end_start_unchanged now f1 p1 (i + 1) fs seqt i
        rw [hO2] at hu
        exact ⟨s, by rw [hu]; exact hs⟩
      · obtain ⟨e, he⟩ := fix_blank_end_nil_dt now f1 p1 (i + 1) fs seqt i
          (by rw [hO2, hc2])
        rw [hO2] at he
        exact ⟨e, he⟩
    · subst hc3
      exact ih (i + 1) p2 fs2 p3 hW g hg

/-- The timestamp found by `find_next_datetime` does not depend on the
index bookkeeping. -/
theorem find_next_fst_indep :
    ∀ (fs : List Fact) (k k' : Nat) (seqt : Option StoredFact),
    (find_next_datetime k fs seqt).map Prod.fst
      = (find_next_datetime k' fs seqt).map Prod.fst := by
  intro fs
  induction fs with
  | nil => intro k k' seqt; rfl
  | cons f fs ih =>
    intro k k' seqt
    cases hs : f.start <;> cases he : f.end_ <;>
      simp [find_next_datetime, hs, he, ih (k + 1) (k' + 1) seqt]

/-- `findNextT` in terms of any-index `find_next_datetime`. -/
theorem findNextT_eq (k : Nat) (fs : List Fact) (seqt : Option StoredFact) :
    findNextT fs seqt = (find_next_datetime k fs seqt).map Prod.fst :=
  find_next_fst_indep fs 0 k seqt

/-- The ordering relations the sanity pass verifies, stated recursively
along the batch: every fact concrete, `start` at or after the cursor,
`start <= end`, `end` at or before the next concrete timestamp of the
remaining batch / subsequent fact, and so on with the cursor advanced to
`end`. -/
def chainOK (seqt : Option StoredFact) : Option DT → List Fact → Prop
  | _, [] => True
  | prev, f :: fs =>
    ∃ s e, f.start = .dt s ∧ f.end_ = .dt e ∧
      (∀ p, prev = some p → p ≤ s) ∧ s ≤ e ∧
      (∀ nt, findNextT fs seqt = some nt → e ≤ nt) ∧
      chainOK seqt (some e) fs

/-- An empty "starts before previous" check means the start respects the
cursor. -/
theorem sanity_start_check_nil (idx : Nat) (pref : Option FactRef)
    (prev : Option DT) (s : DT) (h : sanity_start_check idx pref prev s = []) :
    ∀ p, prev = some p → p ≤ s := by
  intro p hp
  subst hp
  unfold sanity_start_check at h
  by_cases hlt : s < p
  · simp [hlt] at h
  · exact le_of_not_lt hlt

/-- An empty "ends after next" check bounds the end by the next concrete
timestamp. -/
theorem sanity_end_check_nil (idx : Nat) (later : List Fact)
    (seqt : Option StoredFact) (e : DT)
    (h : sanity_end_check idx later seqt e = []) :
    ∀ nt, findNextT later seqt = some nt → e ≤ nt := by
  intro nt hnt
  rw [findNextT_eq (idx + 1)] at hnt
  unfold sanity_end_check at h
  cases hf : find_next_datetime (idx + 1) later seqt with
  | none => rw [hf] at hnt; cases hnt
  | some x =>
    rw [hf] at hnt h
    simp only [Option.map_some'] at hnt
    injection hnt with hnt
    subst hnt
    by_cases hlt : x.1 < e
    · simp [hlt] at h
    · exact le_of_not_lt hlt

/-- An empty "starts after it ends" check on a fully concrete fact gives
`start <= end`. -/
theorem sanity_order_check_nil (idx : Nat) (f : Fact) (s e : DT)
    (hs : f.start = .dt s) (he : f.end_ = .dt e)
    (h : sanity_order_check idx f 2 = []) : s ≤ e := by
  unfold sanity_order_check at h
  rw [hs, he] at h
  by_cases hlt : e < s
  · simp [hlt] at h
  · exact le_of_not_lt hlt

/-- A conflict-free sanity walk over a fully concrete batch establishes
the chain of ordering relations. -/
theorem chainOK_of_sanity_walk (seqt : Option StoredFact) :
    ∀ (fs : List Fact) (i : Nat) (prev : Option DT) (pref : Option FactRef)
      (csAcc : List Conflict),
    (∀ f ∈ fs, (∃ s, f.start = .dt s) ∧ (∃ e, f.end_ = .dt e)) →
    verify_sanity_walk seqt i prev pref csAcc fs = .ok [] →
    chainOK seqt prev fs := by
  intro fs
  induction fs with
  | nil => intro i prev pref csAcc _ _; trivial
  | cons f fs ih =>
    intro i prev pref csAcc hconc h
    obtain ⟨⟨s, hs⟩, ⟨e, he⟩⟩ := hconc f (List.mem_cons_self f fs)
    rw [verify_sanity_walk_cons] at h
    simp only [hs, he, TimeVal.truthy, Bool.not_true, Bool.false_eq_true,
      if_false] at h
    cases hW : verify_sanity_walk seqt (i + 1) (some e) (some (.newF i))
        (csAcc ++ sanity_start_check i pref prev s ++ sanity_end_check i fs seqt e
          ++ sanity_order_check i f (1 + 1)) fs with
    | error e2 =>
      rw [hW] at h
      simp at h
    | ok rest =>
      rw [hW] at h
      simp only [Except.ok.injEq] at h
      have hnil : sanity_start_check i pref prev s = [] ∧
          sanity_end_check i fs seqt e = [] ∧
          sanity_order_check i f (1 + 1) = [] ∧ rest = [] := by
        have := h
        simp only [List.append_eq_nil] at this
        exact ⟨this.1.1.1, this.1.1.2, this.1.2, this.2⟩
      refine ⟨s, e, hs, he, sanity_start_check_nil i pref prev s hnil.1, ?_,
        sanity_end_check_nil i fs seqt e hnil.2.1, ?_⟩
      · exact sanity_order_check_nil i f s e hs he hnil.2.2.1
      · refine ih (i + 1) (some e) (some (.newF i))
          (csAcc ++ sanity_start_check i pref prev s ++ sanity_end_check i fs seqt e
            ++ sanity_order_check i f (1 + 1))
          (fun g hg => hconc g (List.mem_cons_of_mem f hg)) ?_
        rw [hW, hnil.2.2.2]

/-- Every fact of a chain is concrete with `start <= end`. -/
theorem chainOK_each (seqt : Option StoredFact) :
    ∀ (fs : List Fact) (prev : Option DT), chainOK seqt prev fs →
    ∀ f ∈ fs, ∃ s e, f.start = .dt s ∧ f.end_ = .dt e ∧ s ≤ e := by
  intro fs
  induction fs with
  | nil => intro prev _ f hf; cases hf
  | cons f fs ih =>
    intro prev hch g hg
    obtain ⟨s, e, hs, he, _, hse, _, hrest⟩ := hch
    rcases List.mem_cons.mp hg with rfl | hg
    · exact ⟨s, e, hs, he, hse⟩
    · exact ih (some e) hrest g hg

/-- Adjacent facts of a chain respect `end <= next.start`. -/
theorem chainOK_adjacent (seqt : Option StoredFact) :
    ∀ (fs : List Fact) (prev : Option DT), chainOK seqt prev fs →
    ∀ j (h1 : j + 1 < fs.length) (e s : DT),
      (fs.get ⟨j, Nat.lt_of_succ_lt h1⟩).end_ = .dt e →
      (fs.get ⟨j + 1, h1⟩).start = .dt s → e ≤ s := by
  intro fs
  induction fs with
  | nil => intro prev _ j h1; simp at h1
  | cons f fs ih =>
    intro prev hch j h1 e s hje hjs
    obtain ⟨s0, e0, hs0, he0, _, _, hnext, hrest⟩ := hch
    cases j with
    | zero =>
      cases fs with
      | nil => simp at h1
      | cons g gs =>
        have hje' : f.end_ = .dt e := hje
        rw [he0] at hje'
        injection hje' with hje'
        have hjs' : g.start = .dt s := hjs
        have hfind : findNextT (g :: gs) seqt = some s := by
          simp [findNextT, find_next_datetime, hjs']
        have hle := hnext s hfind
        rw [← hje']
        exact hle
    | succ j =>
      exact ih (some e0) hrest j (by simpa using h1) e s (by simpa using hje)
        (by simpa using hjs)

/-- The first fact of a chain starts at or after the seeded cursor. -/
theorem chainOK_head (seqt : Option StoredFact) (prev : Option DT)
    (fs : List Fact) (hch : chainOK seqt prev fs) (h0 : 0 < fs.length)
    (p : DT) (hp : prev = some p) (s : DT)
    (hs : (fs.get ⟨0, h0⟩).start = .dt s) : p ≤ s := by
  cases fs with
  | nil => simp at h0
  | cons f fs =>
    obtain ⟨s0, e0, hs0, _, hprev, _, _, _⟩ := hch
    have hs' : f.start = .dt s := hs
    rw [hs0] at hs'
    injection hs' with hs'
    rw [← hs']
    exact hprev p hp

/-- The last fact of a chain ends at or before the subsequent stored
fact's start. -/
theorem chainOK_last (seqt : Option StoredFact) (sq : StoredFact) (st : DT)
    (hseqt : seqt = some sq) (hst : sq.start = some st) :
    ∀ (fs : List Fact) (prev : Option DT), chainOK seqt prev fs →
    ∀ (hne : fs ≠ []) (e : DT), (fs.getLast hne).end_ = .dt e → e ≤ st := by
  intro fs
  induction fs with
  | nil => intro prev _ hne; cases hne rfl
  | cons f fs ih =>
    intro prev hch hne e he
    obtain ⟨s0, e0, hs0, he0, _, _, hnext, hrest⟩ := hch
    cases fs with
    | nil =>
      have hf : f.end_ = .dt e := by simpa [List.getLast] using he
      rw [he0] at hf
      injection hf with hf
      have hfind : findNextT [] seqt = some st := by
        rw [hseqt]
        simp [findNextT, find_next_datetime, hst]
      have hle := hnext st hfind
      rw [← hf]
      exact hle
    | cons g gs =>
      refine ih (some e0) hrest (by simp) e ?_
      rw [← he]
      symm
      exact congrArg Fact.end_ (List.getLast_cons (by simp))

/-- A successful `prev_and_later` with an antecedent that has an end seeds
the cursor from that end. -/
theorem prev_and_later_ok_ante (gs : List Fact) (a : StoredFact)
    (seqt : Option StoredFact) (ok : Bool) (prev : Option DT) (p : DT)
    (ha : a.end_ = some p)
    (h : prev_and_later gs (some a) seqt ok = .ok prev) :
    prev = some p := by
  cases seqt with
  | none =>
    simp only [prev_and_later, ha, checkSeqt] at h
    injection h with h
    exact h.symm
  | some sf =>
    simp only [prev_and_later, ha, checkSeqt] at h
    by_cases hn : sf.start.isNone = true
    · rw [if_pos hn] at h
      simp at h
    · rw [if_neg hn] at h
      injection h with h
      exact h.symm

/-- A successful `prev_and_later` with a subsequent stored fact implies
that fact has a concrete start. -/
theorem prev_and_later_ok_seqt (gs : List Fact) (ante : Option StoredFact)
    (sq : StoredFact) (ok : Bool) (prev : Option DT)
    (h : prev_and_later gs ante (some sq) ok = .ok prev) :
    ∃ st, sq.start = some st := by
  rcases hs : sq.start with _ | st
  · exfalso
    have hcs : ∀ pr, checkSeqt (some sq) pr ≠ .ok prev := by
      intro pr hpr
      simp only [checkSeqt] at hpr
      rw [if_pos (by simp [hs])] at hpr
      simp at hpr
    cases ante with
    | none =>
      simp only [prev_and_later] at h
      exact hcs _ h
    | some af =>
      rcases hae : af.end_ with _ | v
      · simp only [prev_and_later, hae] at h
        rw [if_neg (by simp)] at h
        exact hcs _ h
      · simp only [prev_and_later, hae] at h
        exact hcs _ h
  · exact ⟨st, rfl⟩

/-- A normal-return `must_complete_times` on a non-empty batch means the
four passes succeeded with an empty accumulated conflict list. -/
theorem must_ok_passes (store : Store) (facts : List Fact) (ok : Bool)
    (fs' : List Fact) (hne : facts ≠ [])
    (h : must_complete_times store facts ok = .ok fs') :
    mct_passes store facts ok = .ok (fs', []) := by
  unfold must_complete_times at h
  rw [if_neg (by simpa [List.isEmpty_iff] using hne)] at h
  cases hrun : mct_passes store facts ok with
  | error e =>
    simp only [hrun] at h
    simp at h
  | ok p =>
    rcases p with ⟨fs, cs⟩
    simp only [hrun] at h
    by_cases hcs : cs.isEmpty = true
    · rw [if_pos hcs] at h
      injection h with h
      subst h
      rw [List.isEmpty_iff.mp hcs]
    · rw [if_neg hcs] at h
      simp at h

/-- A successful run of the four passes decomposes into the four pass
results, the output batch being the blank-fill pass's and the conflict
list the concatenation of the four contributions. -/
theorem mct_passes_ok_decompose (store : Store) (facts : List Fact) (ok : Bool)
    (fs' : List Fact) (cs : List Conflict)
    (h : mct_passes store facts ok = .ok (fs', cs)) :
    ∃ fs1 cs1 fs2 cs2 cs3 cs4,
      fix_clock_times_relative facts (antecedent_fact store facts)
        (subsequent_fact store facts) ok = .ok (fs1, cs1) ∧
      fix_delta_times_relative fs1 (antecedent_fact store facts)
        (subsequent_fact store facts) ok = .ok (fs2, cs2) ∧
      fix_blank_times_relative store.now fs2 (antecedent_fact store facts)
        (subsequent_fact store facts) ok = .ok (fs', cs3) ∧
      verify_datetimes_sanity fs' (antecedent_fact store facts)
        (subsequent_fact store facts) ok (cs1 ++ cs2 ++ cs3) = .ok cs4 ∧
      cs = cs1 ++ cs2 ++ cs3 ++ cs4 := by
  cases h1 : fix_clock_times_relative facts (antecedent_fact store facts)
      (subsequent_fact store facts) ok with
  | error e1 =>
    have hm : mct_passes store facts ok = .error e1 := by
      unfold mct_passes
      simp only [Bind.bind, Except.bind, h1]
    rw [hm] at h
    simp at h
  | ok p1 =>
  rcases p1 with ⟨fs1, cs1⟩
  cases h2 : fix_delta_times_relative fs1 (antecedent_fact store facts)
      (subsequent_fact store facts) ok with
  | error e2 =>
    have hm : mct_passes store facts ok = .error e2 := by
      unfold mct_passes
      simp only [Bind.bind, Except.bind, h1, h2]
    rw [hm] at h
    simp at h
  | ok p2 =>
  rcases p2 with ⟨fs2, cs2⟩
  cases h3 : fix_blank_times_relative store.now fs2 (antecedent_fact store facts)
      (subsequent_fact store facts) ok with
  | error e3 =>
    have hm : mct_passes store facts ok = .error e3 := by
      unfold mct_passes
      simp only [Bind.bind, Except.bind, h1, h2, h3]
    rw [hm] at h
    simp at h
  | ok p3 =>
  rcases p3 with ⟨fs3, cs3⟩
  cases h4 : verify_datetimes_sanity fs3 (antecedent_fact store facts)
      (subsequent_fact store facts) ok (cs1 ++ cs2 ++ cs3) with
  | error e4 =>
    have hm : mct_passes store facts ok = .error e4 := by
      unfold mct_passes
      simp only [Bind.bind, Except.bind, h1, h2, h3, h4]
    rw [hm] at h
    simp at h
  | ok cs4 =>
    have hm : mct_passes store facts ok = .ok (fs3, cs1 ++ cs2 ++ cs3 ++ cs4) := by
      unfold mct_passes
      simp only [Bind.bind, Except.bind, h1, h2, h3, h4]
    rw [hm] at h
    simp only [Except.ok.injEq, Prod.mk.injEq] at h
    obtain ⟨h5, h6⟩ := h
    subst h5
    exact ⟨fs1, cs1, fs2, cs2, cs3, cs4, rfl, h2, h3, h4, h6.symm⟩

/-- C1: whenever `must_complete_times` returns normally (zero conflicts
after all four passes), every fact in the batch carries two concrete
timestamps with `start <= end`, consecutive facts satisfy
`end <= next.start`, the first fact starts at or after the antecedent's
end (when the antecedent has one), and the last fact ends at or before the
subsequent stored fact's start (when one exists). -/
theorem c1_resolved_monotone (store : Store) (facts : List Fact)
    (ongoing_okay : Bool) (fs' : List Fact)
    (h : must_complete_times store facts ongoing_okay = .ok fs') :
    (∀ f ∈ fs', ∃ s e, f.start = .dt s ∧ f.end_ = .dt e ∧ s ≤ e) ∧
    (∀ j (h1 : j + 1 < fs'.length) (e s : DT),
      (fs'.get ⟨j, Nat.lt_of_succ_lt h1⟩).end_ = .dt e →
      (fs'.get ⟨j + 1, h1⟩).start = .dt s → e ≤ s) ∧
    (∀ a p, antecedent_fact store facts = some a → a.end_ = some p →
      ∀ (h0 : 0 < fs'.length) s, (fs'.get ⟨0, h0⟩).start = .dt s → p ≤ s) ∧
    (∀ sq, subsequent_fact store facts = some sq →
      ∀ (hne : fs' ≠ []) e, (fs'.getLast hne).end_ = .dt e →
      ∃ st, sq.start = some st ∧ e ≤ st) := by
  by_cases hfe : facts = []
  · subst hfe
    have hfs : fs' = [] := by
      unfold must_complete_times at h
      simp at h
      exact h
    subst hfs
    refine ⟨?_, ?_, ?_, ?_⟩
    · intro f hf; cases hf
    · intro j h1; simp at h1
    · intro a p ha; simp [antecedent_fact] at ha
    · intro sq hsq; simp [subsequent_fact, subsequent_scan] at hsq
  · have hm := must_ok_passes store facts ongoing_okay fs' hfe h
    obtain ⟨fs1, cs1, fs2, cs2, cs3, cs4, h1, h2, h3, h4, hcs⟩ :=
      mct_passes_ok_decompose store facts ongoing_okay fs' [] hm
    obtain ⟨hc1, hc2, hc3, hc4⟩ : cs1 = [] ∧ cs2 = [] ∧ cs3 = [] ∧ cs4 = [] := by
      have hx := hcs.symm
      simp only [List.append_eq_nil] at hx
      exact ⟨hx.1.1.1, hx.1.1.2, hx.1.2, hx.2⟩
    subst hc1; subst hc2; subst hc3; subst hc4
    obtain ⟨prev, p', hpl2, hWb⟩ := fix_blank_times_relative_ok store.now fs2
      (antecedent_fact store facts) (subsequent_fact store facts) ongoing_okay
      fs' [] h3
    have hconc := fix_blank_walk_nil_concrete store.now
      (subsequent_fact store facts) fs2 0 prev fs' p' hWb
    have hlen : fs'.length = fs2.length := fix_blank_walk_length store.now
      (subsequent_fact store facts) fs2 0 prev fs' p' [] hWb
    have hpl3 : prev_and_later fs' (antecedent_fact store facts)
        (subsequent_fact store facts) ongoing_okay = .ok prev := by
      rw [prev_and_later_congr fs' fs2 (antecedent_fact store facts)
        (subsequent_fact store facts) ongoing_okay hlen]
      exact hpl2
    have hwalk : verify_sanity_walk (subsequent_fact store facts) 0 prev
        ((antecedent_fact store facts).map (fun _ => FactRef.ante))
        ([] ++ [] ++ []) fs' = .ok [] := by
      unfold verify_datetimes_sanity at h4
      simp only [Bind.bind, Except.bind, hpl3] at h4
      exact h4
    have hch := chainOK_of_sanity_walk (subsequent_fact store facts) fs' 0 prev
      ((antecedent_fact store facts).map (fun _ => FactRef.ante))
      ([] ++ [] ++ []) hconc hwalk
    refine ⟨chainOK_each _ fs' prev hch, chainOK_adjacent _ fs' prev hch,
      ?_, ?_⟩
    · intro a p ha hap h0 s hs
      have hprev : prev = some p := by
        apply prev_and_later_ok_ante fs' a (subsequent_fact store facts)
          ongoing_okay prev p hap
        rw [← ha]
        exact hpl3
      exact chainOK_head _ prev fs' hch h0 p hprev s hs
    · intro sq hsq hne e he
      obtain ⟨st, hst⟩ := prev_and_later_ok_seqt fs'
        (antecedent_fact store facts) sq ongoing_okay prev
        (by rw [← hsq]; exact hpl3)
      exact ⟨st, hst, chainOK_last (subsequent_fact store facts) sq st hsq hst
        fs' prev hch hne e he⟩

/-- The C1 witness store: antecedent ending at minute 50, subsequent
starting at minute 300. -/
def c1store : Store :=
  ⟨fun _ => some ⟨some 0, some 50⟩, fun _ => some ⟨some 300, some 400⟩, 1000⟩

/-- The C1 witness batch: two concrete, correctly ordered facts. -/
def c1facts : List Fact := [⟨.dt 100, .dt 200⟩, ⟨.dt 200, .dt 250⟩]

/-- C1 witness: the witness batch resolves with zero conflicts and the
theorem's conclusions hold at it. -/
theorem c1_resolved_monotone_witness :
    (∀ f ∈ c1facts, ∃ s e, f.start = .dt s ∧ f.end_ = .dt e ∧ s ≤ e) ∧
    (∀ j (h1 : j + 1 < c1facts.length) (e s : DT),
      (c1facts.get ⟨j, Nat.lt_of_succ_lt h1⟩).end_ = .dt e →
      (c1facts.get ⟨j + 1, h1⟩).start = .dt s → e ≤ s) ∧
    (∀ a p, antecedent_fact c1store c1facts = some a → a.end_ = some p →
      ∀ (h0 : 0 < c1facts.length) s, (c1facts.get ⟨0, h0⟩).start = .dt s →
      p ≤ s) ∧
    (∀ sq, subsequent_fact c1store c1facts = some sq →
      ∀ (hne : c1facts ≠ []) e, (c1facts.getLast hne).end_ = .dt e →
      ∃ st, sq.start = some st ∧ e ≤ st) :=
  c1_resolved_monotone c1store c1facts false c1facts (by decide)

/-! ## C7: an unparseable string yields exactly one conflict for its field -/

/-- Whether a conflict message concerns the `start` attribute: the four
per-field messages tagged `start`, plus the sanity pass's "starts before
previous fact ends". -/
def isStartMsg : Msg → Bool
  | .couldNotDecipherClock _ w => w == .start
  | .couldNotInferDelta _ w => w == .start
  | .couldNotTranslate w => w == .start
  | .couldNotInferBlank w => w == .start
  | .startsBeforePrev => true
  | .endsAfterNext => false
  | .startsAfterEnds => false

/-- Conflicts of the "starts before previous" check name the current
fact. -/
theorem sanity_start_check_mem (idx : Nat) (pref : Option FactRef)
    (prev : Option DT) (s : DT) :
    ∀ c ∈ sanity_start_check idx pref prev s, c.fact = idx := by
  intro c hc
  unfold sanity_start_check at hc
  split at hc
  · split at hc <;> simp_all
  · simp at hc

/-- Conflicts of the "ends after next" check name the current fact with an
end-related message. -/
theorem sanity_end_check_mem (idx : Nat) (later : List Fact)
    (seqt : Option StoredFact) (e : DT) :
    ∀ c ∈ sanity_end_check idx later seqt e,
      c.fact = idx ∧ c.msg = .endsAfterNext := by
  intro c hc
  unfold sanity_end_check at hc
  split at hc
  · split at hc <;> simp_all
  · simp at hc

/-- Conflicts of the "starts after it ends" check name the current fact
with the order message. -/
theorem sanity_order_check_mem (idx : Nat) (f : Fact) (n : Nat) :
    ∀ c ∈ sanity_order_check idx f n,
      c.fact = idx ∧ c.msg = .startsAfterEnds := by
  intro c hc
  unfold sanity_order_check at hc
  split at hc
  · split at hc
    · split at hc <;> simp_all
    · simp at hc
  · simp at hc

/-- Conflicts appended by clock-time inference name the current fact with
the clock message for the current attribute. -/
theorem infer_datetime_from_clock_conflicts (c : Nat × Nat) (f : Fact)
    (w : Which) (prev : Option DT) (li : Nat) (later : List Fact)
    (seqt : Option StoredFact) (idx : Nat) :
    ∀ c' ∈ (infer_datetime_from_clock c f w prev li later seqt idx).2.2,
      c'.fact = idx ∧ c'.msg = .couldNotDecipherClock c w := by
  intro c' hc'
  unfold infer_datetime_from_clock at hc'
  repeat' split at hc'
  all_goals try simp_all
  all_goals
    rcases hfn : find_next_datetime li later seqt with _ | x <;> simp_all

/-- Conflicts appended by the per-attribute clock fix name the current
fact with a clock message for the current attribute. -/
theorem fix_clock_time_relative_conflicts (f : Fact) (w : Which)
    (prev : Option DT) (li : Nat) (later : List Fact)
    (seqt : Option StoredFact) (idx : Nat) :
    ∀ c' ∈ (fix_clock_time_relative f w prev li later seqt idx).2.2,
      c'.fact = idx ∧ ∃ cc, c'.msg = .couldNotDecipherClock cc w := by
  intro c' hc'
  unfold fix_clock_time_relative at hc'
  split at hc'
  · simp at hc'
  · simp at hc'
  · split at hc'
    · obtain ⟨h1, h2⟩ :=
        infer_datetime_from_clock_conflicts _ f w prev li later seqt idx c' hc'
      exact ⟨h1, _, h2⟩
    · simp at hc'

/-- Conflicts appended by delta inference name the current fact with the
delta message for the current attribute. -/
theorem infer_datetime_from_delta_conflicts (m : Int) (mi : Bool) (f : Fact)
    (w : Which) (prev : Option DT) (li : Nat) (later : List Fact)
    (seqt : Option StoredFact) (idx : Nat) :
    ∀ c' ∈ (infer_datetime_from_delta m mi f w prev li later seqt idx).2.2,
      c'.fact = idx ∧ c'.msg = .couldNotInferDelta m w := by
  intro c' hc'
  unfold infer_datetime_from_delta at hc'
  repeat' split at hc'
  all_goals try simp_all
  all_goals
    rcases hp : prev with _ | p <;>
      rcases hfn : find_next_datetime li later seqt with _ | x <;> simp_all

/-- Conflicts appended by the per-attribute delta fix name the current
fact with a delta message for the current attribute. -/
theorem fix_delta_time_relative_conflicts (f : Fact) (w : Which)
    (prev : Option DT) (li : Nat) (later : List Fact)
    (seqt : Option StoredFact) (idx : Nat) :
    ∀ c' ∈ (fix_delta_time_relative f w prev li later seqt idx).2.2,
      c'.fact = idx ∧ ∃ mm, c'.msg = .couldNotInferDelta mm w := by
  intro c' hc'
  unfold fix_delta_time_relative at hc'
  split at hc'
  · simp at hc'
  · simp at hc'
  · split at hc'
    · obtain ⟨h1, h2⟩ :=
        infer_datetime_from_delta_conflicts _ _ f w prev li later seqt idx c' hc'
      exact ⟨h1, _, h2⟩
    · simp at hc'

/-- Conflicts appended by the per-attribute blank fix name the current
fact with a blank-pass message for the current attribute. -/
theorem fix_blank_time_relative_conflicts (now : DT) (f : Fact) (w : Which)
    (prev : Option DT) (li : Nat) (later : List Fact)
    (seqt : Option StoredFact) (idx : Nat) :
    ∀ c' ∈ (fix_blank_time_relative now f w prev li later seqt idx).2.2,
      c'.fact = idx ∧
        (c'.msg = .couldNotTranslate w ∨ c'.msg = .couldNotInferBlank w) := by
  intro c' hc'
  unfold fix_blank_time_relative at hc'
  repeat' split at hc'
  all_goals try simp_all
  all_goals
    rcases hp : prev with _ | p <;>
      rcases hfn : find_next_datetime li later seqt with _ | x <;> simp_all

/-- The clock pass skips a `start` string both parsers reject. -/
theorem fix_clock_start_junk (f : Fact) (prev : Option DT) (li : Nat)
    (later : List Fact) (seqt : Option StoredFact) (idx : Nat) (s : String)
    (hs : f.start = .str (.junk s)) :
    fix_clock_time_relative f .start prev li later seqt idx = (f, prev, []) := by
  simp [fix_clock_time_relative, hs, parse_clock_time]

/-- The delta pass skips a `start` string both parsers reject. -/
theorem fix_delta_start_junk (f : Fact) (prev : Option DT) (li : Nat)
    (later : List Fact) (seqt : Option StoredFact) (idx : Nat) (s : String)
    (hs : f.start = .str (.junk s)) :
    fix_delta_time_relative f .start prev li later seqt idx = (f, prev, []) := by
  simp [fix_delta_time_relative, hs, parse_relative_minutes]

/-- The blank pass flags a non-empty leftover `start` string with exactly
the "could not translate relative date" conflict, leaving it in place. -/
theorem fix_blank_start_junk (now : DT) (f : Fact) (prev : Option DT)
    (li : Nat) (later : List Fact) (seqt : Option StoredFact) (idx : Nat)
    (s : String) (hs : f.start = .str (.junk s)) (hne : s ≠ "") :
    fix_blank_time_relative now f .start prev li later seqt idx
      = (f, prev, [⟨idx, Option.none, .couldNotTranslate .start⟩]) := by
  have hie : s.isEmpty = false := by
    rw [Bool.eq_false_iff]
    intro hcontra
    exact hne ((String.isEmpty_iff s).mp hcontra)
  have htr : (TimeStr.junk s).truthy = true := by
    simp [TimeStr.truthy, hie]
  simp [fix_blank_time_relative, hs, TimeVal.truthy, htr]

/-- Fixing the `end` attribute in the clock pass never touches `start`. -/
theorem fix_clock_end_start_unchanged (f : Fact) (prev : Option DT)
    (li : Nat) (later : List Fact) (seqt : Option StoredFact) (idx : Nat) :
    ((fix_clock_time_relative f .end_ prev li later seqt idx).1).start
      = f.start := by
  cases hv : f.end_ with
  | none => simp [fix_clock_time_relative, hv]
  | dt d => simp [fix_clock_time_relative, hv]
  | str sstr =>
    cases hpc : parse_clock_time sstr with
    | none => simp [fix_clock_time_relative, hv, hpc]
    | some c =>
      simp only [fix_clock_time_relative, getattr_end, hv, hpc]
      cases hop : f.start with
      | dt d2 => simp [infer_datetime_from_clock, Which.oppo, hop]
      | none =>
        cases hp2 : prev with
        | some p => simp [infer_datetime_from_clock, Which.oppo, hop, hp2]
        | none =>
          cases hfn : find_next_datetime li later seqt with
          | some x =>
            simp [infer_datetime_from_clock, Which.oppo, hop, hp2, hfn]
          | none =>
            simp [infer_datetime_from_clock, Which.oppo, hop, hp2, hfn]
      | str s2 =>
        cases hp2 : prev with
        | some p => simp [infer_datetime_from_clock, Which.oppo, hop, hp2]
        | none =>
          cases hfn : find_next_datetime li later seqt with
          | some x =>
            simp [infer_datetime_from_clock, Which.oppo, hop, hp2, hfn]
          | none =>
            simp [infer_datetime_from_clock, Which.oppo, hop, hp2, hfn]

/-- Fixing the `end` attribute in the delta pass never touches `start`. -/
theorem fix_delta_end_start_unchanged (f : Fact) (prev : Option DT)
    (li : Nat) (later : List Fact) (seqt : Option StoredFact) (idx : Nat) :
    ((fix_delta_time_relative f .end_ prev li later seqt idx).1).start
      = f.start := by
  cases hv : f.end_ with
  | none => simp [fix_delta_time_relative, hv]
  | dt d => simp [fix_delta_time_relative, hv]
  | str sstr =>
    cases hpm : parse_relative_minutes sstr with
    | none => simp [fix_delta_time_relative, hv, hpm]
    | some dm =>
      simp only [fix_delta_time_relative, getattr_end, hv, hpm]
      by_cases hmi : dm.2 = false
      · cases hp2 : prev with
        | some p => simp [infer_datetime_from_delta, hmi, hp2]
        | none => simp [infer_datetime_from_delta, hmi, hp2]
      · cases hfn : find_next_datetime li later seqt with
        | some x => simp [infer_datetime_from_delta, hmi, hv, hfn]
        | none => simp [infer_datetime_from_delta, hmi, hv, hfn]

/-- A successful clock pass decomposes into its cursor seed and its
walk. -/
theorem fix_clock_times_relative_ok (facts : List Fact)
    (ante seqt : Option StoredFact) (ok : Bool) (fs' : List Fact)
    (cs : List Conflict)
    (h : fix_clock_times_relative facts ante seqt ok = .ok (fs', cs)) :
    ∃ prev p', prev_and_later facts ante seqt ok = .ok prev ∧
      fix_clock_walk seqt 0 prev facts = (fs', p', cs) := by
  unfold fix_clock_times_relative at h
  cases hpl : prev_and_later facts ante seqt ok with
  | error e =>
    simp only [Bind.bind, Except.bind, hpl] at h
    simp at h
  | ok prev =>
    simp only [Bind.bind, Except.bind, hpl] at h
    rcases hW : fix_clock_walk seqt 0 prev facts with ⟨fs2, p2, c2⟩
    simp only [hW, Except.ok.injEq, Prod.mk.injEq] at h
    exact ⟨prev, p2, rfl, by rw [hW, h.1, h.2]⟩

/-- A successful delta pass decomposes into its cursor seed and its
walk. -/
theorem fix_delta_times_relative_ok (facts : List Fact)
    (ante seqt : Option StoredFact) (ok : Bool) (fs' : List Fact)
    (cs : List Conflict)
    (h : fix_delta_times_relative facts ante seqt ok = .ok (fs', cs)) :
    ∃ prev p', prev_and_later facts ante seqt ok = .ok prev ∧
      fix_delta_walk seqt 0 prev facts = (fs', p', cs) := by
  unfold fix_delta_times_relative at h
  cases hpl : prev_and_later facts ante seqt ok with
  | error e =>
    simp only [Bind.bind, Except.bind, hpl] at h
    simp at h
  | ok prev =>
    simp only [Bind.bind, Except.bind, hpl] at h
    rcases hW : fix_delta_walk seqt 0 prev facts with ⟨fs2, p2, c2⟩
    simp only [hW, Except.ok.injEq, Prod.mk.injEq] at h
    exact ⟨prev, p2, rfl, by rw [hW, h.1, h.2]⟩

/-- Conflicts appended by the clock walk concern facts at or after the
walk's base index. -/
theorem fix_clock_walk_fact_ge (seqt : Option StoredFact) :
    ∀ (rest : List Fact) (i : Nat) (prev : Option DT),
    ∀ c ∈ (fix_clock_walk seqt i prev rest).2.2, i ≤ c.fact := by
  intro rest
  induction rest with
  | nil => intro i prev c hc; simp [fix_clock_walk] at hc
  | cons f fs ih =>
    intro i prev c hc
    rcases hO1 : fix_clock_time_relative f .start prev (i + 1) fs seqt i with
      ⟨f1, p1, c1⟩
    rcases hO2 : fix_clock_time_relative f1 .end_ p1 (i + 1) fs seqt i with
      ⟨f2, p2, c2⟩
    rcases hW : fix_clock_walk seqt (i + 1) p2 fs with ⟨fs2, p3, c3⟩
    have hstep : fix_clock_walk seqt i prev (f :: fs)
        = (f2 :: fs2, p3, c1 ++ c2 ++ c3) := by
      simp [fix_clock_walk, hO1, hO2, hW]
    rw [hstep] at hc
    simp only [List.append_assoc, List.mem_append] at hc
    rcases hc with hc | hc | hc
    · have := fix_clock_time_relative_conflicts f .start prev (i + 1) fs seqt i c
        (by rw [hO1]; exact hc)
      omega
    · have := fix_clock_time_relative_conflicts f1 .end_ p1 (i + 1) fs seqt i c
        (by rw [hO2]; exact hc)
      omega
    · have := ih (i + 1) p2 c (by rw [hW]; exact hc)
      omega

/-- Conflicts appended by the delta walk concern facts at or after the
walk's base index. -/
theorem fix_delta_walk_fact_ge (seqt : Option StoredFact) :
    ∀ (rest : List Fact) (i : Nat) (prev : Option DT),
    ∀ c ∈ (fix_delta_walk seqt i prev rest).2.2, i ≤ c.fact := by
  intro rest
  induction rest with
  | nil => intro i prev c hc; simp [fix_delta_walk] at hc
  | cons f fs ih =>
    intro i prev c hc
    rcases hO1 : fix_delta_time_relative f .start prev (i + 1) fs seqt i with
      ⟨f1, p1, c1⟩
    rcases hO2 : fix_delta_time_relative f1 .end_ p1 (i + 1) fs seqt i with
      ⟨f2, p2, c2⟩
    rcases hW : fix_delta_walk seqt (i + 1) p2 fs with ⟨fs2, p3, c3⟩
    have hstep : fix_delta_walk seqt i prev (f :: fs)
        = (f2 :: fs2, p3, c1 ++ c2 ++ c3) := by
      simp [fix_delta_walk, hO1, hO2, hW]
    rw [hstep] at hc
    simp only [List.append_assoc, List.mem_append] at hc
    rcases hc with hc | hc | hc
    · have := fix_delta_time_relative_conflicts f .start prev (i + 1) fs seqt i c
        (by rw [hO1]; exact hc)
      omega
    · have := fix_delta_time_relative_conflicts f1 .end_ p1 (i + 1) fs seqt i c
        (by rw [hO2]; exact hc)
      omega
    · have := ih (i + 1) p2 c (by rw [hW]; exact hc)
      omega

/-- Conflicts appended by the blank walk concern facts at or after the
walk's base index. -/
theorem fix_blank_walk_fact_ge (now : DT) (seqt : Option StoredFact) :
    ∀ (rest : List Fact) (i : Nat) (prev : Option DT) (fs' : List Fact)
      (p' : Option DT) (app : List Conflict),
    fix_blank_walk now seqt i prev rest = .ok (fs', p', app) →
    ∀ c ∈ app, i ≤ c.fact := by
  intro rest
  induction rest with
  | nil =>
    intro i prev fs' p' app h c hc
    simp only [fix_blank_walk, Except.ok.injEq, Prod.mk.injEq] at h
    rw [← h.2.2] at hc
    cases hc
  | cons f fs ih =>
    intro i prev fs' p' app h c hc
    obtain ⟨f1, p1, c1, f2, p2, c2, fs2, p3, c3, hO1, hO2, hW, _, _, happ⟩ :=
      fix_blank_walk_cons_ok now seqt i prev f fs fs' p' app h
    subst happ
    simp only [List.append_assoc, List.mem_append] at hc
    rcases hc with hc | hc | hc
    · have := fix_blank_time_relative_conflicts now f .start prev (i + 1) fs
        seqt i c (by rw [hO1]; exact hc)
      omega
    · have := fix_blank_time_relative_conflicts now f1 .end_ p1 (i + 1) fs
        seqt i c (by rw [hO2]; exact hc)
      omega
    · have := ih (i + 1) p2 fs2 p3 c3 hW c hc
      omega

/-- The clock walk leaves a `start` string both parsers reject in place
and appends no start-related conflict naming that fact. -/
theorem fix_clock_walk_junk (seqt : Option StoredFact) :
    ∀ (rest : List Fact) (i : Nat) (prev : Option DT) (fs' : List Fact)
      (p' : Option DT) (app : List Conflict),
    fix_clock_walk seqt i prev rest = (fs', p', app) →
    ∀ j (hj : j < rest.length) (hj' : j < fs'.length) (s : String),
    (rest.get ⟨j, hj⟩).start = .str (.junk s) →
    (fs'.get ⟨j, hj'⟩).start = .str (.junk s) ∧
    app.filter (fun c => c.fact == i + j && isStartMsg c.msg) = [] := by
  intro rest
  induction rest with
  | nil =>
    intro i prev fs' p' app h j hj
    exact absurd hj (by simp)
  | cons f fs ih =>
    intro i prev fs' p' app h j hj hj' s hjunk
    rcases hO1 : fix_clock_time_relative f .start prev (i + 1) fs seqt i with
      ⟨f1, p1, c1⟩
    rcases hO2 : fix_clock_time_relative f1 .end_ p1 (i + 1) fs seqt i with
      ⟨f2, p2, c2⟩
    rcases hW : fix_clock_walk seqt (i + 1) p2 fs with ⟨fs2, p3, c3⟩
    have hstep : fix_clock_walk seqt i prev (f :: fs)
        = (f2 :: fs2, p3, c1 ++ c2 ++ c3) := by
      simp [fix_clock_walk, hO1, hO2, hW]
    rw [hstep] at h
    simp only [Prod.mk.injEq] at h
    obtain ⟨hfs', _, happ⟩ := h
    subst hfs'
    subst happ
    have hc2start : ∀ c ∈ c2, c.fact = i ∧ isStartMsg c.msg = false := by
      intro c hc
      obtain ⟨hcf, cc, hcm⟩ := fix_clock_time_relative_conflicts f1 .end_ p1
        (i + 1) fs seqt i c (by rw [hO2]; exact hc)
      exact ⟨hcf, by simp [hcm, isStartMsg]⟩
    have hc1fact : ∀ c ∈ c1, c.fact = i := by
      intro c hc
      exact (fix_clock_time_relative_conflicts f .start prev (i + 1) fs seqt i c
        (by rw [hO1]; exact hc)).1
    cases j with
    | zero =>
      have hjunk0 : f.start = .str (.junk s) := hjunk
      have h1 := fix_clock_start_junk f prev (i + 1) fs seqt i s hjunk0
      rw [hO1] at h1
      simp only [Prod.mk.injEq] at h1
      obtain ⟨hf1, _, hc1⟩ := h1
      constructor
      · have hu := fix_clock_end_start_unchanged f1 p1 (i + 1) fs seqt i
        rw [hO2] at hu
        show f2.start = .str (.junk s)
        rw [hu, hf1, hjunk0]
      · rw [hc1]
        simp only [List.nil_append, List.filter_append]
        have hf2 : c2.filter (fun c => c.fact == i + 0 && isStartMsg c.msg)
            = [] := by
          refine List.filter_eq_nil_iff.mpr ?_
          intro c hc
          obtain ⟨_, hns⟩ := hc2start c hc
          simp [hns]
        have hf3 : c3.filter (fun c => c.fact == i + 0 && isStartMsg c.msg)
            = [] := by
          refine List.filter_eq_nil_iff.mpr ?_
          intro c hc
          have hge := fix_clock_walk_fact_ge seqt fs (i + 1) p2 c
            (by rw [hW]; exact hc)
          have : (c.fact == i + 0) = false := by
            simp only [beq_eq_false_iff_ne, ne_eq]
            omega
          simp only [this, Bool.false_and]
          intro hcontra
          cases hcontra
        rw [hf2, hf3]
        rfl
    | succ j =>
      have hjs : j < fs.length := by simpa using hj
      have hjs' : j < fs2.length := by simpa using hj'
      have hjunkj : (fs.get ⟨j, hjs⟩).start = .str (.junk s) := by
        simpa using hjunk
      obtain ⟨hkeep, hfilt⟩ := ih (i + 1) p2 fs2 p3 c3 hW j hjs hjs' s hjunkj
      constructor
      · simpa using hkeep
      · simp only [List.append_assoc, List.filter_append]
        have hf1 : c1.filter (fun c => c.fact == i + (j + 1) && isStartMsg c.msg)
            = [] := by
          refine List.filter_eq_nil_iff.mpr ?_
          intro c hc
          have := hc1fact c hc
          have : (c.fact == i + (j + 1)) = false := by
            simp only [beq_eq_false_iff_ne, ne_eq]
            omega
          simp [this]
        have hf2 : c2.filter (fun c => c.fact == i + (j + 1) && isStartMsg c.msg)
            = [] := by
          refine List.filter_eq_nil_iff.mpr ?_
          intro c hc
          have := (hc2start c hc).1
          have : (c.fact == i + (j + 1)) = false := by
            simp only [beq_eq_false_iff_ne, ne_eq]
            omega
          simp [this]
        have hf3 : c3.filter (fun c => c.fact == i + (j + 1) && isStartMsg c.msg)
            = [] := by
          have hidx : i + (j + 1) = (i + 1) + j := by omega
          rw [hidx]
          exact hfilt
        rw [hf1, hf2, hf3]
        rfl

/-- The delta walk leaves a `start` string both parsers reject in place
and appends no start-related conflict naming that fact. -/
theorem fix_delta_walk_junk (seqt : Option StoredFact) :
    ∀ (rest : List Fact) (i : Nat) (prev : Option DT) (fs' : List Fact)
      (p' : Option DT) (app : List Conflict),
    fix_delta_walk seqt i prev rest = (fs', p', app) →
    ∀ j (hj : j < rest.length) (hj' : j < fs'.length) (s : String),
    (rest.get ⟨j, hj⟩).start = .str (.junk s) →
    (fs'.get ⟨j, hj'⟩).start = .str (.junk s) ∧
    app.filter (fun c => c.fact == i + j && isStartMsg c.msg) = [] := by
  intro rest
  induction rest with
  | nil =>
    intro i prev fs' p' app h j hj
    exact absurd hj (by simp)
  | cons f fs ih =>
    intro i prev fs' p' app h j hj hj' s hjunk
    rcases hO1 : fix_delta_time_relative f .start prev (i + 1) fs seqt i with
      ⟨f1, p1, c1⟩
    rcases hO2 : fix_delta_time_relative f1 .end_ p1 (i + 1) fs seqt i with
      ⟨f2, p2, c2⟩
    rcases hW : fix_delta_walk seqt (i + 1) p2 fs with ⟨fs2, p3, c3⟩
    have hstep : fix_delta_walk seqt i prev (f :: fs)
        = (f2 :: fs2, p3, c1 ++ c2 ++ c3) := by
      simp [fix_delta_walk, hO1, hO2, hW]
    rw [hstep] at h
    simp only [Prod.mk.injEq] at h
    obtain ⟨hfs', _, happ⟩ := h
    subst hfs'
    subst happ
    have hc2start : ∀ c ∈ c2, c.fact = i ∧ isStartMsg c.msg = false := by
      intro c hc
      obtain ⟨hcf, mm, hcm⟩ := fix_delta_time_relative_conflicts f1 .end_ p1
        (i + 1) fs seqt i c (by rw [hO2]; exact hc)
      exact ⟨hcf, by simp [hcm, isStartMsg]⟩
    have hc1fact : ∀ c ∈ c1, c.fact = i := by
      intro c hc
      exact (fix_delta_time_relative_conflicts f .start prev (i + 1) fs seqt i c
        (by rw [hO1]; exact hc)).1
    cases j with
    | zero =>
      have hjunk0 : f.start = .str (.junk s) := hjunk
      have h1 := fix_delta_start_junk f prev (i + 1) fs seqt i s hjunk0
      rw [hO1] at h1
      simp only [Prod.mk.injEq] at h1
      obtain ⟨hf1, _, hc1⟩ := h1
      constructor
      · have hu := fix_delta_end_start_unchanged f1 p1 (i + 1) fs seqt i
        rw [hO2] at hu
        show f2.start = .str (.junk s)
        rw [hu, hf1, hjunk0]
      · rw [hc1]
        simp only [List.nil_append, List.filter_append]
        have hf2 : c2.filter (fun c => c.fact == i + 0 && isStartMsg c.msg)
            = [] := by
          refine List.filter_eq_nil_iff.mpr ?_
          intro c hc
          obtain ⟨_, hns⟩ := hc2start c hc
          simp [hns]
        have hf3 : c3.filter (fun c => c.fact == i + 0 && isStartMsg c.msg)
            = [] := by
          refine List.filter_eq_nil_iff.mpr ?_
          intro c hc
          have hge := fix_delta_walk_fact_ge seqt fs (i + 1) p2 c
            (by rw [hW]; exact hc)
          have : (c.fact == i + 0) = false := by
            simp only [beq_eq_false_iff_ne, ne_eq]
            omega
          simp only [this, Bool.false_and]
          intro hcontra
          cases hcontra
        rw [hf2, hf3]
        rfl
    | succ j =>
      have hjs : j < fs.length := by simpa using hj
      have hjs' : j < fs2.length := by simpa using hj'
      have hjunkj : (fs.get ⟨j, hjs⟩).start = .str (.junk s) := by
        simpa using hjunk
      obtain ⟨hkeep, hfilt⟩ := ih (i + 1) p2 fs2 p3 c3 hW j hjs hjs' s hjunkj
      constructor
      · simpa using hkeep
      · simp only [List.append_assoc, List.filter_append]
        have hf1 : c1.filter (fun c => c.fact == i + (j + 1) && isStartMsg c.msg)
            = [] := by
          refine List.filter_eq_nil_iff.mpr ?_
          intro c hc
          have := hc1fact c hc
          have : (c.fact == i + (j + 1)) = false := by
            simp only [beq_eq_false_iff_ne, ne_eq]
            omega
          simp [this]
        have hf2 : c2.filter (fun c => c.fact == i + (j + 1) && isStartMsg c.msg)
            = [] := by
          refine List.filter_eq_nil_iff.mpr ?_
          intro c hc
          have := (hc2start c hc).1
          have : (c.fact == i + (j + 1)) = false := by
            simp only [beq_eq_false_iff_ne, ne_eq]
            omega
          simp [this]
        have hf3 : c3.filter (fun c => c.fact == i + (j + 1) && isStartMsg c.msg)
            = [] := by
          have hidx : i + (j + 1) = (i + 1) + j := by omega
          rw [hidx]
          exact hfilt
        rw [hf1, hf2, hf3]
        rfl

/-- The blank walk flags a non-empty `start` string both parsers reject
with exactly one "could not translate" conflict naming that fact, leaving
the string in place. -/
theorem fix_blank_walk_junk (now : DT) (seqt : Option StoredFact) :
    ∀ (rest : List Fact) (i : Nat) (prev : Option DT) (fs' : List Fact)
      (p' : Option DT) (app : List Conflict),
    fix_blank_walk now seqt i prev rest = .ok (fs', p', app) →
    ∀ j (hj : j < rest.length) (hj' : j < fs'.length) (s : String),
    (rest.get ⟨j, hj⟩).start = .str (.junk s) → s ≠ "" →
    (fs'.get ⟨j, hj'⟩).start = .str (.junk s) ∧
    app.filter (fun c => c.fact == i + j && isStartMsg c.msg)
      = [⟨i + j, Option.none, .couldNotTranslate .start⟩] := by
  intro rest
  induction rest with
  | nil =>
    intro i prev fs' p' app h j hj
    exact absurd hj (by simp)
  | cons f fs ih =>
    intro i prev fs' p' app h j hj hj' s hjunk hne
    obtain ⟨f1, p1, c1, f2, p2, c2, fs2, p3, c3, hO1, hO2, hW, hfs', _, happ⟩ :=
      fix_blank_walk_cons_ok now seqt i prev f fs fs' p' app h
    subst hfs'
    subst happ
    have hc2start : ∀ c ∈ c2, c.fact = i ∧ isStartMsg c.msg = false := by
      intro c hc
      obtain ⟨hcf, hcm⟩ := fix_blank_time_relative_conflicts now f1 .end_ p1
        (i + 1) fs seqt i c (by rw [hO2]; exact hc)
      rcases hcm with hcm | hcm <;> exact ⟨hcf, by simp [hcm, isStartMsg]⟩
    have hc1fact : ∀ c ∈ c1, c.fact = i := by
      intro c hc
      exact (fix_blank_time_relative_conflicts now f .start prev (i + 1) fs
        seqt i c (by rw [hO1]; exact hc)).1
    cases j with
    | zero =>
      have hjunk0 : f.start = .str (.junk s) := hjunk
      have h1 := fix_blank_start_junk now f prev (i + 1) fs seqt i s hjunk0 hne
      rw [hO1] at h1
      simp only [Prod.mk.injEq] at h1
      obtain ⟨hf1, _, hc1⟩ := h1
      constructor
      · have hu := fix_blank_end_start_unchanged now f1 p1 (i + 1) fs seqt i
        rw [hO2] at hu
        show f2.start = .str (.junk s)
        rw [hu, hf1, hjunk0]
      · rw [hc1]
        simp only [List.filter_append, List.filter_cons, List.filter_nil]
        have hf2 : c2.filter (fun c => c.fact == i + 0 && isStartMsg c.msg)
            = [] := by
          refine List.filter_eq_nil_iff.mpr ?_
          intro c hc
          obtain ⟨_, hns⟩ := hc2start c hc
          simp [hns]
        have hf3 : c3.filter (fun c => c.fact == i + 0 && isStartMsg c.msg)
            = [] := by
          refine List.filter_eq_nil_iff.mpr ?_
          intro c hc
          have hge := fix_blank_walk_fact_ge now seqt fs (i + 1) p2 fs2 p3 c3
            hW c hc
          have : (c.fact == i + 0) = false := by
            simp only [beq_eq_false_iff_ne, ne_eq]
            omega
          simp only [this, Bool.false_and]
          intro hcontra
          cases hcontra
        rw [hf2, hf3]
        simp [isStartMsg]
    | succ j =>
      have hjs : j < fs.length := by simpa using hj
      have hjs' : j < fs2.length := by simpa using hj'
      have hjunkj : (fs.get ⟨j, hjs⟩).start = .str (.junk s) := by
        simpa using hjunk
      obtain ⟨hkeep, hfilt⟩ := ih (i + 1) p2 fs2 p3 c3 hW j hjs hjs' s hjunkj hne
      constructor
      · simpa using hkeep
      · simp only [List.append_assoc, List.filter_append]
        have hf1 : c1.filter (fun c => c.fact == i + (j + 1) && isStartMsg c.msg)
            = [] := by
          refine List.filter_eq_nil_iff.mpr ?_
          intro c hc
          have := hc1fact c hc
          have : (c.fact == i + (j + 1)) = false := by
            simp only [beq_eq_false_iff_ne, ne_eq]
            omega
          simp [this]
        have hf2 : c2.filter (fun c => c.fact == i + (j + 1) && isStartMsg c.msg)
            = [] := by
          refine List.filter_eq_nil_iff.mpr ?_
          intro c hc
          have := (hc2start c hc).1
          have : (c.fact == i + (j + 1)) = false := by
            simp only [beq_eq_false_iff_ne, ne_eq]
            omega
          simp [this]
        have hf3 : c3.filter (fun c => c.fact == i + (j + 1) && isStartMsg c.msg)
            = [⟨i + (j + 1), Option.none, .couldNotTranslate .start⟩] := by
          have hidx : i + (j + 1) = (i + 1) + j := by omega
          rw [hidx]
          exact hfilt
        rw [hf1, hf2, hf3]
        rfl

/-- A successful sanity step on a cons batch decomposes into the
start-attribute result, the end-attribute result, the order check and the
recursive walk. -/
theorem verify_sanity_walk_cons_ok (seqt : Option StoredFact) (i : Nat)
    (prev : Option DT) (pref : Option FactRef) (csAcc : List Conflict)
    (f : Fact) (fs : List Fact) (cs : List Conflict)
    (h : verify_sanity_walk seqt i prev pref csAcc (f :: fs) = .ok cs) :
    ∃ (prev1 : Option DT) (n1 : Nat) (a1 : List Conflict)
      (prev2 : Option DT) (n2 : Nat) (a2 : List Conflict)
      (rest : List Conflict),
      (if !f.start.truthy then
        (verify_datetimes_missing_already_caught i csAcc).map
          (fun _ => (prev, 0, []))
      else
        match f.start with
        | .dt s => Except.ok (some s, 1, sanity_start_check i pref prev s)
        | _ => Except.ok (prev, 0, []))
        = Except.ok (prev1, n1, a1) ∧
      (if !f.end_.truthy then
        (verify_datetimes_missing_already_caught i (csAcc ++ a1)).map
          (fun _ => (prev1, 0, []))
      else
        match f.end_ with
        | .dt e => Except.ok (some e, 1, sanity_end_check i fs seqt e)
        | _ => Except.ok (prev1, 0, []))
        = Except.ok (prev2, n2, a2) ∧
      verify_sanity_walk seqt (i + 1) prev2 (some (.newF i))
        (csAcc ++ a1 ++ a2 ++ sanity_order_check i f (n1 + n2)) fs
        = .ok rest ∧
      cs = a1 ++ a2 ++ sanity_order_check i f (n1 + n2) ++ rest := by
  rw [verify_sanity_walk_cons] at h
  cases hS : (if !f.start.truthy then
      (verify_datetimes_missing_already_caught i csAcc).map
        (fun _ => ((prev, 0, []) : Option DT × Nat × List Conflict))
    else
      match f.start with
      | .dt s => Except.ok (some s, 1, sanity_start_check i pref prev s)
      | _ => Except.ok (prev, 0, [])) with
  | error e =>
    simp only [hS] at h
    simp at h
  | ok t1 =>
    rcases t1 with ⟨prev1, n1, a1⟩
    simp only [hS] at h
    cases hE : (if !f.end_.truthy then
        (verify_datetimes_missing_already_caught i (csAcc ++ a1)).map
          (fun _ => ((prev1, 0, []) : Option DT × Nat × List Conflict))
      else
        match f.end_ with
        | .dt e => Except.ok (some e, 1, sanity_end_check i fs seqt e)
        | _ => Except.ok (prev1, 0, [])) with
    | error e =>
      simp only [hE] at h
      simp at h
    | ok t2 =>
      rcases t2 with ⟨prev2, n2, a2⟩
      simp only [hE] at h
      cases hR : verify_sanity_walk seqt (i + 1) prev2 (some (.newF i))
          (csAcc ++ a1 ++ a2 ++ sanity_order_check i f (n1 + n2)) fs with
      | error e =>
        simp only [hR] at h
        simp at h
      | ok rest =>
        simp only [hR, Except.ok.injEq] at h
        exact ⟨prev1, n1, a1, prev2, n2, a2, rest, rfl, hE, hR, h.symm⟩

/-- Conflicts of the start-attribute sanity step name the current fact,
and there are none when the attribute still holds a string. -/
theorem sanity_startRes_classify (i : Nat) (prev : Option DT)
    (pref : Option FactRef) (csAcc : List Conflict) (f : Fact)
    (p1 : Option DT) (n1 : Nat) (a1 : List Conflict)
    (h : (if !f.start.truthy then
        (verify_datetimes_missing_already_caught i csAcc).map
          (fun _ => (prev, 0, []))
      else
        match f.start with
        | .dt s => Except.ok (some s, 1, sanity_start_check i pref prev s)
        | _ => Except.ok (prev, 0, []))
        = Except.ok (p1, n1, a1)) :
    (∀ c ∈ a1, c.fact = i) ∧ (∀ t, f.start = .str t → a1 = []) := by
  split at h
  · cases hm : verify_datetimes_missing_already_caught i csAcc with
    | error e => rw [hm] at h; simp [Except.map] at h
    | ok u =>
      rw [hm] at h
      simp only [Except.map, Except.ok.injEq, Prod.mk.injEq] at h
      obtain ⟨-, -, h3⟩ := h
      subst h3
      exact ⟨by simp, fun _ _ => rfl⟩
  · cases hv : f.start with
    | none =>
      simp only [hv, Except.ok.injEq, Prod.mk.injEq] at h
      obtain ⟨-, -, h3⟩ := h
      subst h3
      exact ⟨by simp, fun _ _ => rfl⟩
    | dt s =>
      simp only [hv, Except.ok.injEq, Prod.mk.injEq] at h
      obtain ⟨-, -, h3⟩ := h
      subst h3
      refine ⟨sanity_start_check_mem i pref prev s, fun t ht => ?_⟩
      cases ht
    | str t' =>
      simp only [hv, Except.ok.injEq, Prod.mk.injEq] at h
      obtain ⟨-, -, h3⟩ := h
      subst h3
      exact ⟨by simp, fun _ _ => rfl⟩

/-- Conflicts of the end-attribute sanity step name the current fact with
an end-related message. -/
theorem sanity_endRes_classify (i : Nat) (prev1 : Option DT)
    (csAcc : List Conflict) (f : Fact) (fs : List Fact)
    (seqt : Option StoredFact)
    (p2 : Option DT) (n2 : Nat) (a2 : List Conflict)
    (h : (if !f.end_.truthy then
        (verify_datetimes_missing_already_caught i csAcc).map
          (fun _ => (prev1, 0, []))
      else
        match f.end_ with
        | .dt e => Except.ok (some e, 1, sanity_end_check i fs seqt e)
        | _ => Except.ok (prev1, 0, []))
        = Except.ok (p2, n2, a2)) :
    ∀ c ∈ a2, c.fact = i ∧ isStartMsg c.msg = false := by
  split at h
  · cases hm : verify_datetimes_missing_already_caught i csAcc with
    | error e => rw [hm] at h; simp [Except.map] at h
    | ok u =>
      rw [hm] at h
      simp only [Except.map, Except.ok.injEq, Prod.mk.injEq] at h
      obtain ⟨-, -, h3⟩ := h
      subst h3
      simp
  · cases hv : f.end_ with
    | none =>
      simp only [hv, Except.ok.injEq, Prod.mk.injEq] at h
      obtain ⟨-, -, h3⟩ := h
      subst h3
      simp
    | dt e =>
      simp only [hv, Except.ok.injEq, Prod.mk.injEq] at h
      obtain ⟨-, -, h3⟩ := h
      subst h3
      intro c hc
      obtain ⟨hcf, hcm⟩ := sanity_end_check_mem i fs seqt e c hc
      exact ⟨hcf, by simp [hcm, isStartMsg]⟩
    | str t' =>
      simp only [hv, Except.ok.injEq, Prod.mk.injEq] at h
      obtain ⟨-, -, h3⟩ := h
      subst h3
      simp

/-- Conflicts appended by the sanity walk concern facts at or after the
walk's base index. -/
theorem verify_sanity_walk_fact_ge (seqt : Option StoredFact) :
    ∀ (rest : List Fact) (i : Nat) (prev : Option DT) (pref : Option FactRef)
      (csAcc : List Conflict) (cs : List Conflict),
    verify_sanity_walk seqt i prev pref csAcc rest = .ok cs →
    ∀ c ∈ cs, i ≤ c.fact := by
  intro rest
  induction rest with
  | nil =>
    intro i prev pref csAcc cs h c hc
    simp only [verify_sanity_walk, Except.ok.injEq] at h
    rw [← h] at hc
    cases hc
  | cons f fs ih =>
    intro i prev pref csAcc cs h c hc
    obtain ⟨p1, n1, a1, p2, n2, a2, rest', hS, hE, hR, hcs⟩ :=
      verify_sanity_walk_cons_ok seqt i prev pref csAcc f fs cs h
    subst hcs
    simp only [List.append_assoc, List.mem_append] at hc
    rcases hc with hc | hc | hc | hc
    · have := (sanity_startRes_classify i prev pref csAcc f p1 n1 a1 hS).1 c hc
      omega
    · have := (sanity_endRes_classify i p1 (csAcc ++ a1) f fs seqt p2 n2 a2
        hE c hc).1
      omega
    · have := (sanity_order_check_mem i f (n1 + n2) c hc).1
      omega
    · have := ih (i + 1) p2 (some (.newF i))
        (csAcc ++ a1 ++ a2 ++ sanity_order_check i f (n1 + n2)) rest' hR c hc
      omega

/-- The sanity walk appends no start-related conflict for a fact whose
`start` still holds a string both parsers rejected. -/
theorem verify_sanity_walk_junk (seqt : Option StoredFact) :
    ∀ (rest : List Fact) (i : Nat) (prev : Option DT) (pref : Option FactRef)
      (csAcc : List Conflict) (cs : List Conflict),
    verify_sanity_walk seqt i prev pref csAcc rest = .ok cs →
    ∀ j (hj : j < rest.length) (s : String),
    (rest.get ⟨j, hj⟩).start = .str (.junk s) →
    cs.filter (fun c => c.fact == i + j && isStartMsg c.msg) = [] := by
  intro rest
  induction rest with
  | nil =>
    intro i prev pref csAcc cs h j hj
    exact absurd hj (by simp)
  | cons f fs ih =>
    intro i prev pref csAcc cs h j hj s hjunk
    obtain ⟨p1, n1, a1, p2, n2, a2, rest', hS, hE, hR, hcs⟩ :=
      verify_sanity_walk_cons_ok seqt i prev pref csAcc f fs cs h
    subst hcs
    have hcls1 := sanity_startRes_classify i prev pref csAcc f p1 n1 a1 hS
    have hcls2 := sanity_endRes_classify i p1 (csAcc ++ a1) f fs seqt p2 n2 a2 hE
    cases j with
    | zero =>
      have hjunk0 : f.start = .str (.junk s) := hjunk
      have ha1 : a1 = [] := hcls1.2 (.junk s) hjunk0
      subst ha1
      simp only [List.nil_append, List.append_assoc, List.filter_append]
      have hf2 : a2.filter (fun c => c.fact == i + 0 && isStartMsg c.msg)
          = [] := by
        refine List.filter_eq_nil_iff.mpr ?_
        intro c hc
        obtain ⟨-, hns⟩ := hcls2 c hc
        simp [hns]
      have hf3 : (sanity_order_check i f (n1 + n2)).filter
          (fun c => c.fact == i + 0 && isStartMsg c.msg) = [] := by
        refine List.filter_eq_nil_iff.mpr ?_
        intro c hc
        obtain ⟨-, hm⟩ := sanity_order_check_mem i f (n1 + n2) c hc
        simp [hm, isStartMsg]
      have hf4 : rest'.filter (fun c => c.fact == i + 0 && isStartMsg c.msg)
          = [] := by
        refine List.filter_eq_nil_iff.mpr ?_
        intro c hc
        have hge := verify_sanity_walk_fact_ge seqt fs (i + 1) p2
          (some (.newF i)) (csAcc ++ [] ++ a2 ++ sanity_order_check i f (n1 + n2))
          rest' hR c hc
        have hne : (c.fact == i + 0) = false := by
          simp only [beq_eq_false_iff_ne, ne_eq]
          omega
        simp only [hne, Bool.false_and]
        intro hcontra
        cases hcontra
      rw [hf2, hf3, hf4]
      rfl
    | succ j =>
      have hjs : j < fs.length := by simpa using hj
      have hjunkj : (fs.get ⟨j, hjs⟩).start = .str (.junk s) := by
        simpa using hjunk
      have hrec := ih (i + 1) p2 (some (.newF i))
        (csAcc ++ a1 ++ a2 ++ sanity_order_check i f (n1 + n2)) rest' hR
        j hjs s hjunkj
      simp only [List.append_assoc, List.filter_append]
      have hf1 : a1.filter (fun c => c.fact == i + (j + 1) && isStartMsg c.msg)
          = [] := by
        refine List.filter_eq_nil_iff.mpr ?_
        intro c hc
        have := hcls1.1 c hc
        have hne : (c.fact == i + (j + 1)) = false := by
          simp only [beq_eq_false_iff_ne, ne_eq]
          omega
        simp [hne]
      have hf2 : a2.filter (fun c => c.fact == i + (j + 1) && isStartMsg c.msg)
          = [] := by
        refine List.filter_eq_nil_iff.mpr ?_
        intro c hc
        have := (hcls2 c hc).1
        have hne : (c.fact == i + (j + 1)) = false := by
          simp only [beq_eq_false_iff_ne, ne_eq]
          omega
        simp [hne]
      have hf3 : (sanity_order_check i f (n1 + n2)).filter
          (fun c => c.fact == i + (j + 1) && isStartMsg c.msg) = [] := by
        refine List.filter_eq_nil_iff.mpr ?_
        intro c hc
        have := (sanity_order_check_mem i f (n1 + n2) c hc).1
        have hne : (c.fact == i + (j + 1)) = false := by
          simp only [beq_eq_false_iff_ne, ne_eq]
          omega
        simp [hne]
      have hf4 : rest'.filter (fun c => c.fact == i + (j + 1) && isStartMsg c.msg)
          = [] := by
        have hidx : i + (j + 1) = (i + 1) + j := by omega
        rw [hidx]
        exact hrec
      rw [hf1, hf2, hf3, hf4]
      rfl

/-- C7: a new fact whose `start` holds a non-empty string that both the
clock-time parser and the relative-delta parser reject leaves
`must_complete_times` through the conflict exit (absent a fatal storage
assertion), and the accumulated conflict list holds exactly one
start-related conflict for that fact: the blank-fill pass's "could not
translate relative date" conflict.  The sanity pass adds no second
conflict for the same unparsed field. -/
theorem c7_junk_start_single_conflict (store : Store) (facts : List Fact)
    (ongoing_okay : Bool) (i : Nat) (hi : i < facts.length) (s : String)
    (hjunk : (facts.get ⟨i, hi⟩).start = .str (.junk s)) (hne : s ≠ "")
    (hnofatal : ∀ e, must_complete_times store facts ongoing_okay ≠ .fatal e) :
    ∃ fs' cs, must_complete_times store facts ongoing_okay = .barf fs' cs ∧
      cs.filter (fun c => c.fact == i && isStartMsg c.msg)
        = [⟨i, Option.none, .couldNotTranslate .start⟩] := by
  have hfne : facts ≠ [] := by
    intro h0
    rw [h0] at hi
    simp at hi
  cases hrun : mct_passes store facts ongoing_okay with
  | error e =>
    have hfat : must_complete_times store facts ongoing_okay = .fatal e := by
      unfold must_complete_times
      rw [if_neg (by simpa [List.isEmpty_iff] using hfne)]
      simp only [hrun]
    exact absurd hfat (hnofatal e)
  | ok p =>
    rcases p with ⟨fs', cs⟩
    obtain ⟨fs1, cs1, fs2, cs2, cs3, cs4, h1, h2, h3, h4, hcs⟩ :=
      mct_passes_ok_decompose store facts ongoing_okay fs' cs hrun
    obtain ⟨pv1, pp1, hpl1, hW1⟩ := fix_clock_times_relative_ok facts
      (antecedent_fact store facts) (subsequent_fact store facts)
      ongoing_okay fs1 cs1 h1
    have hi1 : i < fs1.length := by
      have hl := fix_clock_walk_length (subsequent_fact store facts) facts 0 pv1
      rw [hW1] at hl
      simpa [hl] using hi
    obtain ⟨hj1, hf1⟩ := fix_clock_walk_junk (subsequent_fact store facts)
      facts 0 pv1 fs1 pp1 cs1 hW1 i hi hi1 s hjunk
    obtain ⟨pv2, pp2, hpl2, hW2⟩ := fix_delta_times_relative_ok fs1
      (antecedent_fact store facts) (subsequent_fact store facts)
      ongoing_okay fs2 cs2 h2
    have hi2 : i < fs2.length := by
      have hl := fix_delta_walk_length (subsequent_fact store facts) fs1 0 pv2
      rw [hW2] at hl
      simpa [hl] using hi1
    obtain ⟨hj2, hf2⟩ := fix_delta_walk_junk (subsequent_fact store facts)
      fs1 0 pv2 fs2 pp2 cs2 hW2 i hi1 hi2 s hj1
    obtain ⟨pv3, pp3, hpl3, hW3⟩ := fix_blank_times_relative_ok store.now fs2
      (antecedent_fact store facts) (subsequent_fact store facts)
      ongoing_okay fs' cs3 h3
    have hi3 : i < fs'.length := by
      have hl := fix_blank_walk_length store.now (subsequent_fact store facts)
        fs2 0 pv3 fs' pp3 cs3 hW3
      simpa [hl] using hi2
    obtain ⟨hj3, hf3⟩ := fix_blank_walk_junk store.now
      (subsequent_fact store facts) fs2 0 pv3 fs' pp3 cs3 hW3 i hi2 hi3 s
      hj2 hne
    unfold verify_datetimes_sanity at h4
    cases hpl4 : prev_and_later fs' (antecedent_fact store facts)
        (subsequent_fact store facts) ongoing_okay with
    | error e =>
      simp only [Bind.bind, Except.bind, hpl4] at h4
      simp at h4
    | ok pv4 =>
      simp only [Bind.bind, Except.bind, hpl4] at h4
      have hf4 := verify_sanity_walk_junk (subsequent_fact store facts) fs'
        0 pv4 ((antecedent_fact store facts).map (fun _ => FactRef.ante))
        (cs1 ++ cs2 ++ cs3) cs4 h4 i hi3 s hj3
      simp only [Nat.zero_add] at hf1 hf2 hf3 hf4
      have hfilter : cs.filter (fun c => c.fact == i && isStartMsg c.msg)
          = [⟨i, Option.none, .couldNotTranslate .start⟩] := by
        rw [hcs]
        simp only [List.filter_append, hf1, hf2, hf3, hf4]
        simp
      have hcsne : cs ≠ [] := by
        intro h0
        rw [h0] at hfilter
        simp at hfilter
      refine ⟨fs', cs, ?_, hfilter⟩
      unfold must_complete_times
      rw [if_neg (by simpa [List.isEmpty_iff] using hfne)]
      simp only [hrun]
      rw [if_neg (by simpa [List.isEmpty_iff] using hcsne)]

/-- Witness for C7: a one-fact batch whose `start` is the unparsable string
"garbage" exits through `barf_and_exit` with exactly the blank-fill pass's
translate conflict recorded for that field. -/
theorem c7_junk_start_single_conflict_witness :
    (0 : Nat) < ([⟨.str (.junk "garbage"), .none⟩] : List Fact).length ∧
    "garbage" ≠ "" ∧
    ∃ fs' cs,
      must_complete_times ⟨fun _ => Option.none, fun _ => Option.none, 570⟩
        [⟨.str (.junk "garbage"), .none⟩] true = .barf fs' cs ∧
      cs.filter (fun c => c.fact == 0 && isStartMsg c.msg)
        = [⟨0, Option.none, .couldNotTranslate .start⟩] :=
  ⟨by decide, by decide,
    c7_junk_start_single_conflict
      ⟨fun _ => Option.none, fun _ => Option.none, 570⟩
      [⟨.str (.junk "garbage"), .none⟩] true 0 (by decide) "garbage" rfl
      (by decide) (by intro e; cases e <;> decide)⟩

end Dob
